import Mathlib

/-!
Verification of the CleanSlate analysis engine (`src/lib/scanner.js`).

The engine takes one file's source text together with its parsed tree and
returns a list of hygiene issues.  Five detectors run in sequence:
TODO/FIXME comments, unused declarations, long functions, deeply nested
code, and dead code after `return`; a parse failure short-circuits into a
single syntax-error issue.

This file gives a shallow embedding of that engine.  JavaScript strings
are modelled as Lean `String`s viewed as `List Char` (the analysed inputs
are ASCII, so UTF-16 indices and code points coincide); the acorn syntax
tree is modelled as a closed inductive of the node kinds the engine
consumes; the acorn-walk traversal (an external dependency of the repo)
is modelled from the spec's Tree Adapter contract.  All definitions are
computable and reduce in the kernel, so concrete runs can be settled by
`decide`.
-/

/-- Issue record as pushed by `scanner.js` (`type`, `filePath`, `line`,
`message`, `code`).  The spec's `kind`/`snippet` fields correspond to
`type`/`code`; the spec's symbolic issue kinds map to the literal `type`
strings of the source (`UnusedVariable` ↦ "Unused Variable",
`DeepNesting` ↦ "Deeply Nested Code", `UnreachableCode` ↦ "Dead Code",
`PendingWork` ↦ "TODO/FIXME Comment", `SyntaxError` ↦ "Syntax Error",
`LongFunction` ↦ "Long Function"). -/
structure Issue where
  type : String
  filePath : String
  line : Nat
  message : String
  code : String
deriving DecidableEq, Repr

/-- Modelled from the spec: the external parser collaborator "must either
return a tree ... or fail with a located syntax error exposing at least a
line number" (§6).  `loc` is the reported 1-based error line when present
(`parseError.loc.line` in the source), `msg` the parser message. -/
structure ParseError where
  loc : Option Nat
  msg : String
deriving DecidableEq, Repr

/-- Kind tag stored by the declaration pass of `checkForUnusedCode`
(the source stores the string 'Variable' or 'Function'). -/
inductive DeclKind where
  | dvar
  | dfun
deriving DecidableEq, Repr

/-- The `info.type` string of the source ('Variable' / 'Function'). -/
def DeclKind.typeStr : DeclKind → String
  | .dvar => "Variable"
  | .dfun => "Function"

/-- The source's `info.type.toLowerCase()` ('variable' / 'function'). -/
def DeclKind.lowerStr : DeclKind → String
  | .dvar => "variable"
  | .dfun => "function"

/-- Declaration record of `checkForUnusedCode` (its `used` flag is
threaded separately, as the result of the reference pass). -/
structure DeclInfo where
  kind : DeclKind
  line : Nat
deriving DecidableEq, Repr

/-- JavaScript `str.split('\n')` on the character list: the list of lines,
never empty, one more entry than there are newline characters. -/
def splitLines : List Char → List (List Char)
  | [] => [[]]
  | c :: cs =>
    match splitLines cs with
    | [] => [[]]
    | l :: ls => if c = '\n' then [] :: l :: ls else (c :: l) :: ls

/-- The `lines` array of `scanFile`: `content.split('\n')`. -/
def linesOf (content : String) : List String :=
  (splitLines content.data).map String.mk

/-- `getLineNumberFromIndex` of scanner.js:
`content.slice(0, index).split('\n').length`. -/
def getLineNumberFromIndex (content : String) (index : Nat) : Nat :=
  (splitLines (content.data.take index)).length

/-- JavaScript `lines[i] || ''` for a possibly negative index `i`:
out-of-bounds access yields `undefined`, which `|| ''` turns into the
empty string (an in-bounds empty line is also returned unchanged by
`|| ''`, since `'' || '' === ''`). -/
def jsLineAt (lines : List String) (i : Int) : String :=
  if i < 0 then "" else lines.getD i.toNat ""

/-- Snippet contract in the spec's words (§3): "the literal source line at
`line`, or an empty string if `line` is out of bounds". -/
def specSnippet (lines : List String) (line : Nat) : String :=
  if 1 ≤ line ∧ line ≤ lines.length then lines.getD (line - 1) "" else ""

/-- Modelled from the spec: the parsed-tree input (§6) as a closed
tagged-variant set, "one variant per syntax construct actually consumed"
(§9): conditional and the loop forms, blocks, the three function forms,
variable declarations, identifiers, return statements, plus the
expression shapes inspected by `findParentNode` (assignments, object
properties, calls, literals).  Every node carries its `start`/`stop`
byte offsets as produced by the external parser. -/
inductive Node where
  | program (start stop : Nat) (body : List Node)
  | exprStmt (start stop : Nat) (expression : Node)
  | ifStmt (start stop : Nat) (test consequent : Node) (alternate : Option Node)
  | forStmt (start stop : Nat) (finit ftest fupdate : Option Node) (body : Node)
  | whileStmt (start stop : Nat) (test body : Node)
  | doWhileStmt (start stop : Nat) (body test : Node)
  | forInStmt (start stop : Nat) (left right body : Node)
  | forOfStmt (start stop : Nat) (left right body : Node)
  | blockStmt (start stop : Nat) (body : List Node)
  | returnStmt (start stop : Nat) (argument : Option Node)
  | funcDecl (start stop : Nat) (id : Option Node) (params : List Node) (body : Node)
  | funcExpr (start stop : Nat) (id : Option Node) (params : List Node) (body : Node)
  | arrowFunc (start stop : Nat) (params : List Node) (body : Node)
  | varDecl (start stop : Nat) (declarations : List Node)
  | varDeclarator (start stop : Nat) (id : Node) (dinit : Option Node)
  | assignExpr (start stop : Nat) (left right : Node)
  | callExpr (start stop : Nat) (callee : Node) (args : List Node)
  | objectExpr (start stop : Nat) (properties : List Node)
  | property (start stop : Nat) (key value : Node)
  | ident (start stop : Nat) (name : String)
  | lit (start stop : Nat)

/-- The `start` offset of a node (`node.start` in acorn). -/
def Node.start : Node → Nat
  | .program s _ _ => s
  | .exprStmt s _ _ => s
  | .ifStmt s _ _ _ _ => s
  | .forStmt s _ _ _ _ _ => s
  | .whileStmt s _ _ _ => s
  | .doWhileStmt s _ _ _ => s
  | .forInStmt s _ _ _ _ => s
  | .forOfStmt s _ _ _ _ => s
  | .blockStmt s _ _ => s
  | .returnStmt s _ _ => s
  | .funcDecl s _ _ _ _ => s
  | .funcExpr s _ _ _ _ => s
  | .arrowFunc s _ _ _ => s
  | .varDecl s _ _ => s
  | .varDeclarator s _ _ _ => s
  | .assignExpr s _ _ _ => s
  | .callExpr s _ _ _ => s
  | .objectExpr s _ _ => s
  | .property s _ _ _ => s
  | .ident s _ _ => s
  | .lit s _ => s

/-- The `end` offset of a node (`node.end` in acorn). -/
def Node.stop : Node → Nat
  | .program _ e _ => e
  | .exprStmt _ e _ => e
  | .ifStmt _ e _ _ _ => e
  | .forStmt _ e _ _ _ _ => e
  | .whileStmt _ e _ _ => e
  | .doWhileStmt _ e _ _ => e
  | .forInStmt _ e _ _ _ => e
  | .forOfStmt _ e _ _ _ => e
  | .blockStmt _ e _ => e
  | .returnStmt _ e _ => e
  | .funcDecl _ e _ _ _ => e
  | .funcExpr _ e _ _ _ => e
  | .arrowFunc _ e _ _ => e
  | .varDecl _ e _ => e
  | .varDeclarator _ e _ _ => e
  | .assignExpr _ e _ _ => e
  | .callExpr _ e _ _ => e
  | .objectExpr _ e _ => e
  | .property _ e _ _ => e
  | .ident _ e _ => e
  | .lit _ e => e

mutual

/-- Structural equality of nodes, standing in for JavaScript reference
equality (`===`).  In a tree produced by the parser every node occupies a
distinct source span, so two structurally equal nodes (offsets included)
are the same node; `uniqueParents` below makes this well-formedness
assumption explicit where a claim needs it. -/
def nodeBeq : Node → Node → Bool
  | .program s e b, .program s' e' b' => s == s' && e == e' && nodeListBeq b b'
  | .exprStmt s e x, .exprStmt s' e' x' => s == s' && e == e' && nodeBeq x x'
  | .ifStmt s e t c a, .ifStmt s' e' t' c' a' =>
      s == s' && e == e' && nodeBeq t t' && nodeBeq c c' && nodeOptBeq a a'
  | .forStmt s e i t u b, .forStmt s' e' i' t' u' b' =>
      s == s' && e == e' && nodeOptBeq i i' && nodeOptBeq t t' && nodeOptBeq u u' && nodeBeq b b'
  | .whileStmt s e t b, .whileStmt s' e' t' b' =>
      s == s' && e == e' && nodeBeq t t' && nodeBeq b b'
  | .doWhileStmt s e b t, .doWhileStmt s' e' b' t' =>
      s == s' && e == e' && nodeBeq b b' && nodeBeq t t'
  | .forInStmt s e l r b, .forInStmt s' e' l' r' b' =>
      s == s' && e == e' && nodeBeq l l' && nodeBeq r r' && nodeBeq b b'
  | .forOfStmt s e l r b, .forOfStmt s' e' l' r' b' =>
      s == s' && e == e' && nodeBeq l l' && nodeBeq r r' && nodeBeq b b'
  | .blockStmt s e b, .blockStmt s' e' b' => s == s' && e == e' && nodeListBeq b b'
  | .returnStmt s e a, .returnStmt s' e' a' => s == s' && e == e' && nodeOptBeq a a'
  | .funcDecl s e i p b, .funcDecl s' e' i' p' b' =>
      s == s' && e == e' && nodeOptBeq i i' && nodeListBeq p p' && nodeBeq b b'
  | .funcExpr s e i p b, .funcExpr s' e' i' p' b' =>
      s == s' && e == e' && nodeOptBeq i i' && nodeListBeq p p' && nodeBeq b b'
  | .arrowFunc s e p b, .arrowFunc s' e' p' b' =>
      s == s' && e == e' && nodeListBeq p p' && nodeBeq b b'
  | .varDecl s e d, .varDecl s' e' d' => s == s' && e == e' && nodeListBeq d d'
  | .varDeclarator s e i d, .varDeclarator s' e' i' d' =>
      s == s' && e == e' && nodeBeq i i' && nodeOptBeq d d'
  | .assignExpr s e l r, .assignExpr s' e' l' r' =>
      s == s' && e == e' && nodeBeq l l' && nodeBeq r r'
  | .callExpr s e c a, .callExpr s' e' c' a' =>
      s == s' && e == e' && nodeBeq c c' && nodeListBeq a a'
  | .objectExpr s e p, .objectExpr s' e' p' => s == s' && e == e' && nodeListBeq p p'
  | .property s e k v, .property s' e' k' v' =>
      s == s' && e == e' && nodeBeq k k' && nodeBeq v v'
  | .ident s e n, .ident s' e' n' => s == s' && e == e' && n == n'
  | .lit s e, .lit s' e' => s == s' && e == e'
  | _, _ => false

/-- Pointwise `nodeBeq` on node lists. -/
def nodeListBeq : List Node → List Node → Bool
  | [], [] => true
  | x :: xs, y :: ys => nodeBeq x y && nodeListBeq xs ys
  | _, _ => false

/-- Pointwise `nodeBeq` on optional nodes (absent fields are `null` in the
source, and `null === x` is false for every node `x`). -/
def nodeOptBeq : Option Node → Option Node → Bool
  | none, none => true
  | some x, some y => nodeBeq x y
  | _, _ => false

end

mutual

/-- Modelled from the spec: the Tree Adapter's traversal capability,
"visits every node reachable from the root" (§4.1).  It stands in for the
external `acorn-walk` dependency used by `walk.simple` / `walk.ancestor`
in scanner.js: every node is listed in depth-first order, paired with its
chain of ancestors (innermost first), which is what the `ancestors`
argument of `walk.ancestor` callbacks exposes. -/
def visitNode (anc : List Node) : Node → List (Node × List Node)
  | n@(.program _ _ body) => (n, anc) :: visitList (n :: anc) body
  | n@(.exprStmt _ _ x) => (n, anc) :: visitNode (n :: anc) x
  | n@(.ifStmt _ _ t c a) =>
      (n, anc) :: (visitNode (n :: anc) t ++ visitNode (n :: anc) c ++ visitOpt (n :: anc) a)
  | n@(.forStmt _ _ i t u b) =>
      (n, anc) :: (visitOpt (n :: anc) i ++ visitOpt (n :: anc) t
        ++ visitOpt (n :: anc) u ++ visitNode (n :: anc) b)
  | n@(.whileStmt _ _ t b) => (n, anc) :: (visitNode (n :: anc) t ++ visitNode (n :: anc) b)
  | n@(.doWhileStmt _ _ b t) => (n, anc) :: (visitNode (n :: anc) b ++ visitNode (n :: anc) t)
  | n@(.forInStmt _ _ l r b) =>
      (n, anc) :: (visitNode (n :: anc) l ++ visitNode (n :: anc) r ++ visitNode (n :: anc) b)
  | n@(.forOfStmt _ _ l r b) =>
      (n, anc) :: (visitNode (n :: anc) l ++ visitNode (n :: anc) r ++ visitNode (n :: anc) b)
  | n@(.blockStmt _ _ body) => (n, anc) :: visitList (n :: anc) body
  | n@(.returnStmt _ _ a) => (n, anc) :: visitOpt (n :: anc) a
  | n@(.funcDecl _ _ i p b) =>
      (n, anc) :: (visitOpt (n :: anc) i ++ visitList (n :: anc) p ++ visitNode (n :: anc) b)
  | n@(.funcExpr _ _ i p b) =>
      (n, anc) :: (visitOpt (n :: anc) i ++ visitList (n :: anc) p ++ visitNode (n :: anc) b)
  | n@(.arrowFunc _ _ p b) => (n, anc) :: (visitList (n :: anc) p ++ visitNode (n :: anc) b)
  | n@(.varDecl _ _ d) => (n, anc) :: visitList (n :: anc) d
  | n@(.varDeclarator _ _ i d) => (n, anc) :: (visitNode (n :: anc) i ++ visitOpt (n :: anc) d)
  | n@(.assignExpr _ _ l r) => (n, anc) :: (visitNode (n :: anc) l ++ visitNode (n :: anc) r)
  | n@(.callExpr _ _ c a) => (n, anc) :: (visitNode (n :: anc) c ++ visitList (n :: anc) a)
  | n@(.objectExpr _ _ p) => (n, anc) :: visitList (n :: anc) p
  | n@(.property _ _ k v) => (n, anc) :: (visitNode (n :: anc) k ++ visitNode (n :: anc) v)
  | n@(.ident _ _ _) => [(n, anc)]
  | n@(.lit _ _) => [(n, anc)]

/-- Traversal of a child list, left to right. -/
def visitList (anc : List Node) : List Node → List (Node × List Node)
  | [] => []
  | x :: xs => visitNode anc x ++ visitList anc xs

/-- Traversal of an optional child (`null` children are skipped). -/
def visitOpt (anc : List Node) : Option Node → List (Node × List Node)
  | none => []
  | some x => visitNode anc x

end

/-- All nodes of a tree in traversal order; this is the sequence of nodes
a `walk.simple` pass presents to its visitors. -/
def allNodes (t : Node) : List Node :=
  (visitNode [] t).map Prod.fst

/-- JavaScript `\s` class as matched by the `[:|\s]` and `\s*` parts of
the TODO/FIXME pattern: space, tab, line terminators, vertical tab, form
feed, NBSP, BOM (the analysed sources only ever contain the ASCII ones). -/
def jsSpace (c : Char) : Bool :=
  c == ' ' || c == '\t' || c == '\n' || c == '\r' || c == '\x0b' || c == '\x0c'
    || c == ' ' || c == '﻿'

/-- Characters that JavaScript `.` (without the `s` flag) does not match:
the line terminators. -/
def lineTerm (c : Char) : Bool :=
  c == '\n' || c == '\r' || c == ' ' || c == ' '

/-- Case-insensitive match of the `(TODO|FIXME)` alternation at the head
of the character list; returns the characters actually matched (the
capture keeps the source spelling) and the remainder. -/
def matchMarker (cs : List Char) : Option (List Char × List Char) :=
  match cs with
  | c1 :: c2 :: c3 :: c4 :: rest =>
    if c1.toLower == 't' && c2.toLower == 'o' && c3.toLower == 'd' && c4.toLower == 'o' then
      some ([c1, c2, c3, c4], rest)
    else
      match rest with
      | c5 :: rest' =>
        if c1.toLower == 'f' && c2.toLower == 'i' && c3.toLower == 'x' && c4.toLower == 'm'
            && c5.toLower == 'e' then
          some ([c1, c2, c3, c4, c5], rest')
        else none
      | [] => none
  | _ => none

/-- One attempt of `/\/\/\s*(TODO|FIXME)[:|\s]*(.*)/i` at the head of the
list: literal `//`, then a maximal run of whitespace, the marker, a
maximal run of `[:|\s]`, and the rest of the line as the captured free
text.  Greediness needs no backtracking here: the marker begins with a
non-space letter and `(.*)` accepts the empty string.  Returns the
captured marker, the captured text, and the total matched length. -/
def tryMatchTodo (cs : List Char) : Option (List Char × List Char × Nat) :=
  match cs with
  | '/' :: '/' :: rest =>
    let ws := rest.takeWhile jsSpace
    let afterWs := rest.dropWhile jsSpace
    match matchMarker afterWs with
    | none => none
    | some (marker, afterMarker) =>
      let sepCount := (afterMarker.takeWhile (fun c => c == ':' || c == '|' || jsSpace c)).length
      let afterSep := afterMarker.dropWhile (fun c => c == ':' || c == '|' || jsSpace c)
      let text := afterSep.takeWhile (fun c => !lineTerm c)
      some (marker, text, 2 + ws.length + marker.length + sepCount + text.length)
  | _ => none

/-- The `while ((match = todoRegex.exec(content)) !== null)` loop of
`checkForTodoComments`: scan forward from the current position, emit one
issue per match, and resume after the matched text (`lastIndex`).  The
fuel argument starts at the length of the text; every step consumes at
least one character, so the fuel never runs out. -/
def todoLoop (content filePath : String) (lines : List String) :
    Nat → List Char → Nat → List Issue
  | 0, _, _ => []
  | _ + 1, [], _ => []
  | fuel + 1, c :: cs, idx =>
    match tryMatchTodo (c :: cs) with
    | some (marker, text, len) =>
      let line := getLineNumberFromIndex content idx
      let desc := if text = [] then "No description provided" else String.mk text
      ⟨"TODO/FIXME Comment", filePath, line,
          "Found " ++ String.mk marker ++ " comment: " ++ desc,
          jsLineAt lines ((line : Int) - 1)⟩
        :: todoLoop content filePath lines fuel ((c :: cs).drop len) (idx + len)
    | none => todoLoop content filePath lines fuel cs (idx + 1)

/-- `checkForTodoComments` of scanner.js. -/
def checkForTodoComments (content filePath : String) (lines : List String) : List Issue :=
  todoLoop content filePath lines content.data.length content.data 0

/-- Match enumerator following the spec's words for the Comment Scanner
(§4.2): every match of the marker pattern, as a `(start index, marker,
free text)` triple, in scan order. -/
def todoMatchLoop : Nat → List Char → Nat → List (Nat × List Char × List Char)
  | 0, _, _ => []
  | _ + 1, [], _ => []
  | fuel + 1, c :: cs, idx =>
    match tryMatchTodo (c :: cs) with
    | some (marker, text, len) =>
      (idx, marker, text) :: todoMatchLoop fuel ((c :: cs).drop len) (idx + len)
    | none => todoMatchLoop fuel cs (idx + 1)

/-- All matches of the TODO/FIXME pattern in a text. -/
def todoMatches (content : String) : List (Nat × List Char × List Char) :=
  todoMatchLoop content.data.length content.data 0

/-- Issue the spec prescribes for one marker match: a PendingWork issue at
the match's line "whose message embeds the matched marker and the
trailing free text (or a fixed placeholder if empty)" (§4.2). -/
def mkTodoIssue (content filePath : String) (lines : List String)
    (m : Nat × List Char × List Char) : Issue :=
  let line := getLineNumberFromIndex content m.1
  let desc := if m.2.2 = [] then "No description provided" else String.mk m.2.2
  ⟨"TODO/FIXME Comment", filePath, line,
    "Found " ++ String.mk m.2.1 ++ " comment: " ++ desc,
    jsLineAt lines ((line : Int) - 1)⟩

/-- JavaScript `Map.prototype.set`: an existing key keeps its original
position in iteration order and has its value replaced; a new key is
appended.  The declarations map of `checkForUnusedCode` is built with it,
so "later declarations of the same name overwrite the earlier record"
(§4.3, last-write-wins). -/
def jsMapSet (m : List (String × DeclInfo)) (k : String) (v : DeclInfo) :
    List (String × DeclInfo) :=
  if m.any (fun p => p.1 == k) then m.map (fun p => if p.1 == k then (k, v) else p)
  else m ++ [(k, v)]

/-- First pass of `checkForUnusedCode`: walk the tree and record every
`VariableDeclarator` whose `id` is a plain `Identifier`, and every
`FunctionDeclaration` with an `Identifier` id, keyed by name, with the
line of the node's `start` offset. -/
def declPass (content : String) (t : Node) : List (String × DeclInfo) :=
  (allNodes t).foldl (fun m n =>
    match n with
    | .varDeclarator s _ (.ident _ _ name) _ =>
        jsMapSet m name ⟨.dvar, getLineNumberFromIndex content s⟩
    | .funcDecl s _ (some (.ident _ _ name)) _ _ =>
        jsMapSet m name ⟨.dfun, getLineNumberFromIndex content s⟩
    | _ => m) []

/-- The `isDeclaration` test of the second pass: some ancestor is a
`VariableDeclarator` or `FunctionDeclaration` whose `id` is this very
identifier node. -/
def isDeclaringId (anc : List Node) (n : Node) : Bool :=
  anc.any (fun a =>
    match a with
    | .varDeclarator _ _ id _ => nodeBeq id n
    | .funcDecl _ _ (some id) _ _ => nodeBeq id n
    | _ => false)

/-- Second pass of `checkForUnusedCode`: every `Identifier` occurrence
that is not itself a declaring occurrence and whose name is a key of the
declarations map marks that name as used.  The returned list is the set
of names marked used (the source mutates `declarations.get(name).used`). -/
def refPass (t : Node) (decls : List (String × DeclInfo)) : List String :=
  (visitNode [] t).foldl (fun used pr =>
    match pr with
    | (.ident s e name, anc) =>
      if !isDeclaringId anc (.ident s e name) && decls.any (fun p => p.1 == name) then
        name :: used
      else used
    | _ => used) []

/-- Message of an unused-declaration issue:
`Unused ${info.type.toLowerCase()} '${name}'`. -/
def unusedMessage (k : DeclKind) (name : String) : String :=
  "Unused " ++ k.lowerStr ++ " \x27" ++ name ++ "\x27"

/-- The issue pushed for an unused record. -/
def mkUnusedIssue (filePath : String) (lines : List String)
    (name : String) (info : DeclInfo) : Issue :=
  ⟨"Unused " ++ info.kind.typeStr, filePath, info.line, unusedMessage info.kind name,
    jsLineAt lines ((info.line : Int) - 1)⟩

/-- `checkForUnusedCode` of scanner.js: two passes, then one issue per
record that is not in the fixed exclusion set `exports`/`module`/`require`
and was never marked used, in map iteration order. -/
def checkForUnusedCode (content filePath : String) (lines : List String) (t : Node) :
    List Issue :=
  let declarations := declPass content t
  let used := refPass t declarations
  declarations.foldl (fun issues p =>
    if p.1 == "exports" || p.1 == "module" || p.1 == "require" then issues
    else if used.contains p.1 then issues
    else issues ++ [mkUnusedIssue filePath lines p.1 p.2]) []

/-- Referencedness in the spec's words (§4.3 pass 2): the name has some
identifier occurrence in the file that is not itself the
binding-introducing occurrence of a declaration. -/
def referencedB (t : Node) (name : String) : Bool :=
  (visitNode [] t).any (fun pr =>
    match pr with
    | (.ident s e nm, anc) => nm == name && !isDeclaringId anc (.ident s e nm)
    | _ => false)

/-- JavaScript `x.name` where `x` is expected to be an `Identifier`: a
non-identifier node has no `name` property, and the template literal
renders the resulting `undefined` as the string "undefined". -/
def identNameOrUndefined : Node → String
  | .ident _ _ nm => nm
  | _ => "undefined"

/-- `findParentNode` of scanner.js: walk the whole tree and remember the
last visited `VariableDeclarator` whose `init`, `AssignmentExpression`
whose `right`, or `Property` whose `value` is the target node. -/
def findParentNode (t : Node) (target : Node) : Option Node :=
  (allNodes t).foldl (fun result n =>
    match n with
    | .varDeclarator _ _ _ (some i) => if nodeBeq i target then some n else result
    | .assignExpr _ _ _ r => if nodeBeq r target then some n else result
    | .property _ _ _ v => if nodeBeq v target then some n else result
    | _ => result) none

/-- The name chosen for a function expression or arrow function:
`parentNode && parentNode.type === 'VariableDeclarator' && parentNode.id
? parentNode.id.name : 'anonymous'`. -/
def declaratorName : Option Node → String
  | some (.varDeclarator _ _ id _) => identNameOrUndefined id
  | _ => "anonymous"

/-- Maximum number of lines for a function (`MAX_FUNCTION_LENGTH`). -/
def MAX_FUNCTION_LENGTH : Nat := 50

/-- The body of the three `walk.simple` visitors of
`checkForLongFunctions`, for one visited node: length is
`endLine - startLine` via `getLineNumberFromIndex`, and a node over the
threshold yields one issue at its start line. -/
def longCheckNode (content filePath : String) (lines : List String) (ast n : Node) :
    List Issue :=
  match n with
  | .funcDecl s e id _ _ =>
    let startLine := getLineNumberFromIndex content s
    let endLine := getLineNumberFromIndex content e
    let functionLength : Int := (endLine : Int) - (startLine : Int)
    if (MAX_FUNCTION_LENGTH : Int) < functionLength then
      [⟨"Long Function", filePath, startLine,
        "Function \x27" ++ (match id with | some i => identNameOrUndefined i | none => "anonymous")
          ++ "\x27 is too long (" ++ toString functionLength ++ " lines)",
        jsLineAt lines ((startLine : Int) - 1)⟩]
    else []
  | .funcExpr s e _ _ _ =>
    let startLine := getLineNumberFromIndex content s
    let endLine := getLineNumberFromIndex content e
    let functionLength : Int := (endLine : Int) - (startLine : Int)
    if (MAX_FUNCTION_LENGTH : Int) < functionLength then
      [⟨"Long Function", filePath, startLine,
        "Function \x27" ++ declaratorName (findParentNode ast n)
          ++ "\x27 is too long (" ++ toString functionLength ++ " lines)",
        jsLineAt lines ((startLine : Int) - 1)⟩]
    else []
  | .arrowFunc s e _ _ =>
    let startLine := getLineNumberFromIndex content s
    let endLine := getLineNumberFromIndex content e
    let functionLength : Int := (endLine : Int) - (startLine : Int)
    if (MAX_FUNCTION_LENGTH : Int) < functionLength then
      [⟨"Long Function", filePath, startLine,
        "Arrow function \x27" ++ declaratorName (findParentNode ast n)
          ++ "\x27 is too long (" ++ toString functionLength ++ " lines)",
        jsLineAt lines ((startLine : Int) - 1)⟩]
    else []
  | _ => []

/-- `checkForLongFunctions` of scanner.js: every function-like node of the
tree is checked once, in traversal order. -/
def checkForLongFunctions (content filePath : String) (lines : List String) (t : Node) :
    List Issue :=
  (allNodes t).flatMap (longCheckNode content filePath lines t)

/-- Function-like nodes in the spec's words (§4.4): "named function,
function expression, arrow function". -/
def isFunctionLike : Node → Bool
  | .funcDecl _ _ _ _ _ => true
  | .funcExpr _ _ _ _ _ => true
  | .arrowFunc _ _ _ _ => true
  | _ => false

/-- Does `p` hold `target` in one of the three child slots inspected by
`findParentNode` (declarator init / assignment right / property value)?
A well-formed parse tree gives every node at most one such parent. -/
def slotMatch (p target : Node) : Bool :=
  match p with
  | .varDeclarator _ _ _ (some i) => nodeBeq i target
  | .assignExpr _ _ _ r => nodeBeq r target
  | .property _ _ _ v => nodeBeq v target
  | _ => false

/-- Well-formedness of a tree as produced by a real parser: no node value
occurs in the slots of two different parents (node values carry their
source offsets, so distinct occurrences are distinct values). -/
def uniqueParents (t : Node) : Bool :=
  (allNodes t).all (fun n =>
    decide (((allNodes t).filter (fun p => slotMatch p n)).length ≤ 1))

/-- Binding-name resolution in the spec's words (§4.4): the function "is
the initializer of a named variable" — i.e. some declarator of the tree
has it as its `init` — and then the issue names that variable. -/
def specBindingName (t n : Node) : String :=
  match (allNodes t).find? (fun p =>
      match p with
      | .varDeclarator _ _ _ (some i) => nodeBeq i n
      | _ => false) with
  | some (.varDeclarator _ _ id _) => identNameOrUndefined id
  | _ => "anonymous"

/-- Long-function issues for one node in the spec's words (§4.4), amended
for named function declarations, which use their own name rather than
being labelled anonymous. -/
def specLongCheck (content filePath : String) (lines : List String) (t n : Node) :
    List Issue :=
  match n with
  | .funcDecl s e id _ _ =>
    let startLine := getLineNumberFromIndex content s
    let endLine := getLineNumberFromIndex content e
    let functionLength : Int := (endLine : Int) - (startLine : Int)
    if (MAX_FUNCTION_LENGTH : Int) < functionLength then
      [⟨"Long Function", filePath, startLine,
        "Function \x27" ++ (match id with | some i => identNameOrUndefined i | none => "anonymous")
          ++ "\x27 is too long (" ++ toString functionLength ++ " lines)",
        jsLineAt lines ((startLine : Int) - 1)⟩]
    else []
  | .funcExpr s e _ _ _ =>
    let startLine := getLineNumberFromIndex content s
    let endLine := getLineNumberFromIndex content e
    let functionLength : Int := (endLine : Int) - (startLine : Int)
    if (MAX_FUNCTION_LENGTH : Int) < functionLength then
      [⟨"Long Function", filePath, startLine,
        "Function \x27" ++ specBindingName t n
          ++ "\x27 is too long (" ++ toString functionLength ++ " lines)",
        jsLineAt lines ((startLine : Int) - 1)⟩]
    else []
  | .arrowFunc s e _ _ =>
    let startLine := getLineNumberFromIndex content s
    let endLine := getLineNumberFromIndex content e
    let functionLength : Int := (endLine : Int) - (startLine : Int)
    if (MAX_FUNCTION_LENGTH : Int) < functionLength then
      [⟨"Long Function", filePath, startLine,
        "Arrow function \x27" ++ specBindingName t n
          ++ "\x27 is too long (" ++ toString functionLength ++ " lines)",
        jsLineAt lines ((startLine : Int) - 1)⟩]
    else []
  | _ => []

/-- Maximum nesting level (`MAX_NESTING_LEVEL`). -/
def MAX_NESTING_LEVEL : Nat := 3

/-- Message of a deep-nesting issue:
`Code is nested too deeply (${level + 1} levels)`. -/
def deepMessage (level : Nat) : String :=
  "Code is nested too deeply (" ++ toString (level + 1) ++ " levels)"

/-- The issue pushed by `checkNesting` for a control-flow construct
starting at offset `s`, met at nesting level `level`. -/
def mkDeepIssue (content filePath : String) (lines : List String) (s level : Nat) : Issue :=
  let line := getLineNumberFromIndex content s
  ⟨"Deeply Nested Code", filePath, line, deepMessage level,
    jsLineAt lines ((line : Int) - 1)⟩

mutual

/-- The recursive `checkNesting` of `checkForDeeplyNestedCode`.  Its
child recursion follows the source's `for (const key in node)` loop over
acorn's node properties: every array-valued property is recursed into
element by element, and an object-valued property only when its key is
`body`, `consequent` or `alternate`; the level is incremented exactly when
the recursion leaves one of the six control-flow constructs
(`IfStatement` and the five loop statements).  Consequently the detector
never descends into `test`/`init`/`update`/`left`/`right` expressions,
declarator `init`s, `ExpressionStatement` expressions, return arguments or
property values — only into child arrays (program/block bodies, params,
declarations, call arguments, object properties) and
body/consequent/alternate slots. -/
def checkNesting (content filePath : String) (lines : List String) :
    Node → Nat → List Issue
  | .program _ _ body, level => nestList content filePath lines body level
  | .exprStmt _ _ _, _ => []
  | .ifStmt s _ _ c a, level =>
      (if MAX_NESTING_LEVEL ≤ level then [mkDeepIssue content filePath lines s level] else [])
        ++ (checkNesting content filePath lines c (level + 1)
          ++ nestOpt content filePath lines a (level + 1))
  | .forStmt s _ _ _ _ b, level =>
      (if MAX_NESTING_LEVEL ≤ level then [mkDeepIssue content filePath lines s level] else [])
        ++ checkNesting content filePath lines b (level + 1)
  | .whileStmt s _ _ b, level =>
      (if MAX_NESTING_LEVEL ≤ level then [mkDeepIssue content filePath lines s level] else [])
        ++ checkNesting content filePath lines b (level + 1)
  | .doWhileStmt s _ b _, level =>
      (if MAX_NESTING_LEVEL ≤ level then [mkDeepIssue content filePath lines s level] else [])
        ++ checkNesting content filePath lines b (level + 1)
  | .forInStmt s _ _ _ b, level =>
      (if MAX_NESTING_LEVEL ≤ level then [mkDeepIssue content filePath lines s level] else [])
        ++ checkNesting content filePath lines b (level + 1)
  | .forOfStmt s _ _ _ b, level =>
      (if MAX_NESTING_LEVEL ≤ level then [mkDeepIssue content filePath lines s level] else [])
        ++ checkNesting content filePath lines b (level + 1)
  | .blockStmt _ _ body, level => nestList content filePath lines body level
  | .returnStmt _ _ _, _ => []
  | .funcDecl _ _ _ p b, level =>
      nestList content filePath lines p level ++ checkNesting content filePath lines b level
  | .funcExpr _ _ _ p b, level =>
      nestList content filePath lines p level ++ checkNesting content filePath lines b level
  | .arrowFunc _ _ p b, level =>
      nestList content filePath lines p level ++ checkNesting content filePath lines b level
  | .varDecl _ _ d, level => nestList content filePath lines d level
  | .varDeclarator _ _ _ _, _ => []
  | .assignExpr _ _ _ _, _ => []
  | .callExpr _ _ _ a, level => nestList content filePath lines a level
  | .objectExpr _ _ p, level => nestList content filePath lines p level
  | .property _ _ _ _, _ => []
  | .ident _ _ _, _ => []
  | .lit _ _, _ => []

/-- `node[key].forEach(child => checkNesting(child, newLevel))` for an
array-valued property of a non-control-flow node. -/
def nestList (content filePath : String) (lines : List String) :
    List Node → Nat → List Issue
  | [], _ => []
  | x :: xs, level =>
      checkNesting content filePath lines x level ++ nestList content filePath lines xs level

/-- Recursion into a possibly-null `alternate` slot. -/
def nestOpt (content filePath : String) (lines : List String) :
    Option Node → Nat → List Issue
  | none, _ => []
  | some x, level => checkNesting content filePath lines x level

end

/-- `checkForDeeplyNestedCode` of scanner.js: `checkNesting(ast)` with the
implicit starting level 0. -/
def checkForDeeplyNestedCode (content filePath : String) (lines : List String) (t : Node) :
    List Issue :=
  checkNesting content filePath lines t 0

mutual

/-- Occurrence list of the control-flow constructs the nesting detector
reaches, as `(start offset, level)` pairs in emission order, following
exactly the reachability of `checkNesting`'s property loop. -/
def nestingOcc : Node → Nat → List (Nat × Nat)
  | .program _ _ body, level => nestingOccList body level
  | .exprStmt _ _ _, _ => []
  | .ifStmt s _ _ c a, level =>
      (s, level) :: (nestingOcc c (level + 1) ++ nestingOccOpt a (level + 1))
  | .forStmt s _ _ _ _ b, level => (s, level) :: nestingOcc b (level + 1)
  | .whileStmt s _ _ b, level => (s, level) :: nestingOcc b (level + 1)
  | .doWhileStmt s _ b _, level => (s, level) :: nestingOcc b (level + 1)
  | .forInStmt s _ _ _ b, level => (s, level) :: nestingOcc b (level + 1)
  | .forOfStmt s _ _ _ b, level => (s, level) :: nestingOcc b (level + 1)
  | .blockStmt _ _ body, level => nestingOccList body level
  | .returnStmt _ _ _, _ => []
  | .funcDecl _ _ _ p b, level => nestingOccList p level ++ nestingOcc b level
  | .funcExpr _ _ _ p b, level => nestingOccList p level ++ nestingOcc b level
  | .arrowFunc _ _ p b, level => nestingOccList p level ++ nestingOcc b level
  | .varDecl _ _ d, level => nestingOccList d level
  | .varDeclarator _ _ _ _, _ => []
  | .assignExpr _ _ _ _, _ => []
  | .callExpr _ _ _ a, level => nestingOccList a level
  | .objectExpr _ _ p, level => nestingOccList p level
  | .property _ _ _ _, _ => []
  | .ident _ _ _, _ => []
  | .lit _ _, _ => []

/-- List version of `nestingOcc`. -/
def nestingOccList : List Node → Nat → List (Nat × Nat)
  | [], _ => []
  | x :: xs, level => nestingOcc x level ++ nestingOccList xs level

/-- Option version of `nestingOcc`. -/
def nestingOccOpt : Option Node → Nat → List (Nat × Nat)
  | none, _ => []
  | some x, level => nestingOcc x level

end

mutual

/-- Control-flow constructs of the whole parsed tree with their nesting
depth in the spec's words: the depth (here the 0-based `level`) counts the
"enclosing control-flow construct bodies (conditional/loop), not generic
block statements" (Glossary); it rises exactly when descending into the
body (or consequent/alternate branch) of one of the six control-flow
constructs, and every child of every node is visited. -/
def specDeepOcc : Node → Nat → List (Nat × Nat)
  | .program _ _ body, level => specDeepOccList body level
  | .exprStmt _ _ x, level => specDeepOcc x level
  | .ifStmt s _ t c a, level =>
      (s, level) :: (specDeepOcc t level ++ specDeepOcc c (level + 1)
        ++ specDeepOccOpt a (level + 1))
  | .forStmt s _ i t u b, level =>
      (s, level) :: (specDeepOccOpt i level ++ specDeepOccOpt t level
        ++ specDeepOccOpt u level ++ specDeepOcc b (level + 1))
  | .whileStmt s _ t b, level =>
      (s, level) :: (specDeepOcc t level ++ specDeepOcc b (level + 1))
  | .doWhileStmt s _ b t, level =>
      (s, level) :: (specDeepOcc b (level + 1) ++ specDeepOcc t level)
  | .forInStmt s _ l r b, level =>
      (s, level) :: (specDeepOcc l level ++ specDeepOcc r level ++ specDeepOcc b (level + 1))
  | .forOfStmt s _ l r b, level =>
      (s, level) :: (specDeepOcc l level ++ specDeepOcc r level ++ specDeepOcc b (level + 1))
  | .blockStmt _ _ body, level => specDeepOccList body level
  | .returnStmt _ _ a, level => specDeepOccOpt a level
  | .funcDecl _ _ i p b, level =>
      specDeepOccOpt i level ++ specDeepOccList p level ++ specDeepOcc b level
  | .funcExpr _ _ i p b, level =>
      specDeepOccOpt i level ++ specDeepOccList p level ++ specDeepOcc b level
  | .arrowFunc _ _ p b, level => specDeepOccList p level ++ specDeepOcc b level
  | .varDecl _ _ d, level => specDeepOccList d level
  | .varDeclarator _ _ i d, level => specDeepOcc i level ++ specDeepOccOpt d level
  | .assignExpr _ _ l r, level => specDeepOcc l level ++ specDeepOcc r level
  | .callExpr _ _ c a, level => specDeepOcc c level ++ specDeepOccList a level
  | .objectExpr _ _ p, level => specDeepOccList p level
  | .property _ _ k v, level => specDeepOcc k level ++ specDeepOcc v level
  | .ident _ _ _, _ => []
  | .lit _ _, _ => []

/-- List version of `specDeepOcc`. -/
def specDeepOccList : List Node → Nat → List (Nat × Nat)
  | [], _ => []
  | x :: xs, level => specDeepOcc x level ++ specDeepOccList xs level

/-- Option version of `specDeepOcc`. -/
def specDeepOccOpt : Option Node → Nat → List (Nat × Nat)
  | none, _ => []
  | some x, level => specDeepOcc x level

end

/-- `statement.type === 'ReturnStatement'`. -/
def isReturn : Node → Bool
  | .returnStmt _ _ _ => true
  | _ => false

/-- The issue pushed by `checkForDeadCode` for the first statement found
after a return: note that its message is a fixed string and does not
mention `returnLine`. -/
def mkDeadIssue (content filePath : String) (lines : List String) (st : Node) : Issue :=
  let line := getLineNumberFromIndex content st.start
  ⟨"Dead Code", filePath, line, "Unreachable code after return statement",
    jsLineAt lines ((line : Int) - 1)⟩

/-- The statement loop of the `BlockStatement` visitor of
`checkForDeadCode`: once a `ReturnStatement` has been seen, the next
statement yields one issue and the loop breaks. -/
def deadLoop (content filePath : String) (lines : List String) :
    List Node → Bool → Int → List Issue
  | [], _, _ => []
  | st :: rest, foundReturn, returnLine =>
    if foundReturn then [mkDeadIssue content filePath lines st]
    else if isReturn st then
      deadLoop content filePath lines rest true (getLineNumberFromIndex content st.start : Int)
    else deadLoop content filePath lines rest foundReturn returnLine

/-- The statement lists of all `BlockStatement` nodes of the tree, in
traversal order. -/
def blockBodies (t : Node) : List (List Node) :=
  (allNodes t).filterMap (fun n =>
    match n with
    | .blockStmt _ _ body => some body
    | _ => none)

/-- `checkForDeadCode` of scanner.js: for every block with more than one
statement, run the statement loop with `foundReturn = false`,
`returnLine = -1`. -/
def checkForDeadCode (content filePath : String) (lines : List String) (t : Node) :
    List Issue :=
  (blockBodies t).flatMap (fun body =>
    if body.length ≤ 1 then [] else deadLoop content filePath lines body false (-1))

/-- Reachability-detector contract in the spec's words (§4.5): scan the
statements in order; if some statement follows the first unconditional
return of the sequence, emit exactly one issue, for the first such
statement, at its start line. -/
def deadSpecBlock (content filePath : String) (lines : List String) (body : List Node) :
    List Issue :=
  match body.findIdx? isReturn with
  | some i =>
    match body.get? (i + 1) with
    | some st => [mkDeadIssue content filePath lines st]
    | none => []
  | none => []

/-- `scanFile` of scanner.js, for one file: the parse result is an input
(the parser is an external collaborator).  A parse failure yields the
single syntax-error issue — at the reported line, or line 1 when the
error carries no location — and no detector runs; otherwise the five
detectors run in order on the same text and tree, into one issue list. -/
def scanFile (filePath content : String) (parseResult : Except ParseError Node) :
    List Issue :=
  let lines := linesOf content
  match parseResult with
  | .error e =>
    let line := e.loc.getD 1
    [⟨"Syntax Error", filePath, line, "Syntax error: " ++ e.msg,
      jsLineAt lines ((line : Int) - 1)⟩]
  | .ok ast =>
    checkForTodoComments content filePath lines
      ++ checkForUnusedCode content filePath lines ast
      ++ checkForLongFunctions content filePath lines ast
      ++ checkForDeeplyNestedCode content filePath lines ast
      ++ checkForDeadCode content filePath lines ast

/-- The per-file loop of `scanDirectory`: issues of all files are
concatenated; no state is carried from one file to the next. -/
def scanBatch (files : List (String × String × Except ParseError Node)) : List Issue :=
  files.flatMap (fun f => scanFile f.1 f.2.1 f.2.2)

/-- Well-formedness of one issue with respect to the line array: its line
is at least 1 and its snippet is the `lines[line - 1] || ''` lookup at
that line.  Every issue the engine emits satisfies this by construction. -/
def wellFormed (lines : List String) (i : Issue) : Prop :=
  1 ≤ i.line ∧ i.code = jsLineAt lines ((i.line : Int) - 1)

/-- Concrete test file: a function body `{ return x; a(); b(); }` spread
over lines 2-4, the claims' dead-code example. -/
def deadContent : String := "function f() \x7b\n  return x;\n  a();\n  b();\n\x7d"

/-- Parse tree of `deadContent` with acorn's offsets: `return x;` at
17-26, `a();` at 29-33, `b();` at 36-40. -/
def deadTree : Node :=
  .program 0 42 [.funcDecl 0 42 (some (.ident 9 10 "f")) [] (.blockStmt 13 42
    [.returnStmt 17 26 (some (.ident 24 25 "x")),
     .exprStmt 29 33 (.callExpr 29 32 (.ident 29 30 "a") []),
     .exprStmt 36 40 (.callExpr 36 39 (.ident 36 37 "b") [])])]

/-- Concrete test file: four conditionals nested inside a function
expression that is the initializer of `f` — the innermost `if` (offset 44)
has three enclosing control-flow construct bodies. -/
def nestContent : String := "const f = function() \x7b if (a) if (b) if (c) if (d) x; \x7d;"

/-- Parse tree of `nestContent`: the `if` chain sits in the `init` slot of
a declarator, a slot the nesting detector's property loop never enters. -/
def nestTree : Node :=
  .program 0 56 [.varDecl 0 56 [.varDeclarator 6 55 (.ident 6 7 "f")
    (some (.funcExpr 10 55 none [] (.blockStmt 21 55
      [.ifStmt 23 53 (.ident 27 28 "a")
        (.ifStmt 30 53 (.ident 34 35 "b")
          (.ifStmt 37 53 (.ident 41 42 "c")
            (.ifStmt 44 53 (.ident 48 49 "d")
              (.exprStmt 51 53 (.ident 51 52 "x")) none) none) none) none])))]]

/-- Fifty-one newline characters. -/
def fiftyOneNewlines : String := String.mk (List.replicate 51 '\n')

/-- Concrete test file: a named function declaration spanning 52 lines
(length 51 by the engine's `endLine - startLine` measure). -/
def longContent : String := "function foo() \x7b" ++ fiftyOneNewlines ++ "\x7d"

/-- Parse tree of `longContent`: `foo` is a named function declaration,
not the initializer of any variable. -/
def longTree : Node :=
  .program 0 68 [.funcDecl 0 68 (some (.ident 9 12 "foo")) [] (.blockStmt 15 68 [])]

/-- Concrete test file: one declared and never referenced variable. -/
def unusedContent : String := "const a = 1;"

/-- Parse tree of `unusedContent`. -/
def unusedTree : Node :=
  .program 0 12 [.varDecl 0 12 [.varDeclarator 6 11 (.ident 6 7 "a") (some (.lit 10 11))]]

/-- Concrete test file: a never-referenced declaration named `exports`,
a member of the exclusion set. -/
def exportsContent : String := "const exports = 1;"

/-- Parse tree of `exportsContent`. -/
def exportsTree : Node :=
  .program 0 18 [.varDecl 0 18
    [.varDeclarator 6 17 (.ident 6 13 "exports") (some (.lit 16 17))]]

/-- Concrete test file of the pending-work claim. -/
def todoContent : String := "// TODO: fix later"

lemma flatMap_congr_mem {α β : Type} {l : List α} {f g : α → List β}
    (h : ∀ a ∈ l, f a = g a) : l.flatMap f = l.flatMap g := by
  induction l with
  | nil => rfl
  | cons x xs ih =>
    simp only [List.flatMap_cons]
    rw [h x (by simp), ih (fun a ha => h a (by simp [ha]))]

lemma todoLoop_eq (content filePath : String) (lines : List String) :
    ∀ (fuel : Nat) (cs : List Char) (idx : Nat),
    todoLoop content filePath lines fuel cs idx
      = (todoMatchLoop fuel cs idx).map (mkTodoIssue content filePath lines) := by
  intro fuel
  induction fuel with
  | zero => intro cs idx; simp [todoLoop, todoMatchLoop]
  | succ n ih =>
    intro cs idx
    cases cs with
    | nil => simp [todoLoop, todoMatchLoop]
    | cons c rest =>
      cases h : tryMatchTodo (c :: rest) with
      | none => simp [todoLoop, todoMatchLoop, h, ih]
      | some m =>
        obtain ⟨marker, text, len⟩ := m
        simp [todoLoop, todoMatchLoop, h, ih, mkTodoIssue]

lemma checkForTodoComments_eq (content filePath : String) (lines : List String) :
    checkForTodoComments content filePath lines
      = (todoMatches content).map (mkTodoIssue content filePath lines) := by
  simpa [checkForTodoComments, todoMatches] using
    todoLoop_eq content filePath lines content.data.length content.data 0

/-- C8.  For every match of the TODO/FIXME marker pattern the engine
emits one PendingWork ("TODO/FIXME Comment") issue whose message embeds
the matched marker and the trailing free text, with the fixed placeholder
"No description provided" when the trailing text is empty; in particular
`// TODO: fix later` yields exactly one issue whose message embeds the
trailing text "fix later". -/
theorem claim_C8 :
    (∀ (content filePath : String) (lines : List String),
      checkForTodoComments content filePath lines
        = (todoMatches content).map (mkTodoIssue content filePath lines))
    ∧ checkForTodoComments todoContent "test.js" (linesOf todoContent)
        = [⟨"TODO/FIXME Comment", "test.js", 1,
            "Found TODO comment: " ++ "fix later", "// TODO: fix later"⟩] := by
  refine ⟨checkForTodoComments_eq, ?_⟩
  decide

lemma deadLoop_found (content filePath : String) (lines : List String) :
    ∀ (body : List Node) (r : Int),
    deadLoop content filePath lines body true r
      = match body with
        | [] => []
        | st :: _ => [mkDeadIssue content filePath lines st] := by
  intro body r
  cases body <;> simp [deadLoop]

lemma deadLoop_false (content filePath : String) (lines : List String) :
    ∀ (body : List Node) (r : Int),
    deadLoop content filePath lines body false r
      = deadSpecBlock content filePath lines body := by
  intro body
  induction body with
  | nil => intro r; simp [deadLoop, deadSpecBlock]
  | cons st rest ih =>
    intro r
    by_cases hr : isReturn st
    · rw [show deadLoop content filePath lines (st :: rest) false r
          = deadLoop content filePath lines rest true
              (getLineNumberFromIndex content st.start : Int) by simp [deadLoop, hr]]
      rw [deadLoop_found]
      simp only [deadSpecBlock, List.findIdx?_cons, hr, if_true]
      cases rest <;> simp
    · rw [show deadLoop content filePath lines (st :: rest) false r
          = deadLoop content filePath lines rest false r by simp [deadLoop, hr]]
      rw [ih r]
      simp only [deadSpecBlock, List.findIdx?_cons, hr, if_false, List.findIdx?_succ]
      cases hfi : rest.findIdx? isReturn with
      | none => simp
      | some i => simp

lemma deadBlock_eq (content filePath : String) (lines : List String) (body : List Node) :
    (if body.length ≤ 1 then [] else deadLoop content filePath lines body false (-1))
      = deadSpecBlock content filePath lines body := by
  by_cases h : body.length ≤ 1
  · simp only [h, if_true]
    match body with
    | [] => simp [deadSpecBlock]
    | [st] =>
      by_cases hr : isReturn st
      · simp [deadSpecBlock, hr]
      · simp [deadSpecBlock, hr]
    | st :: st' :: rest => simp at h
  · simp only [h, if_false]
    exact deadLoop_false content filePath lines body (-1)

lemma checkForDeadCode_eq (content filePath : String) (lines : List String) (t : Node) :
    checkForDeadCode content filePath lines t
      = (blockBodies t).flatMap (deadSpecBlock content filePath lines) := by
  unfold checkForDeadCode
  exact flatMap_congr_mem (fun body _ => deadBlock_eq content filePath lines body)

/-- C2.  The dead-code detector's output is exactly, block by block (every
`BlockStatement` of the tree, in traversal order): one UnreachableCode
("Dead Code") issue for the first statement following the first return of
the block's top-level sequence, anchored at that statement's start line —
and nothing else, so statements after the first unreachable one are not
separately reported and a block without a statement after its first
return yields nothing.  In particular the block
`{ return x; a(); b(); }` of `deadContent` yields exactly one issue, at
the line of `a();` (line 3). -/
theorem claim_C2 :
    (∀ (content filePath : String) (lines : List String) (t : Node),
      checkForDeadCode content filePath lines t
        = (blockBodies t).flatMap (deadSpecBlock content filePath lines))
    ∧ checkForDeadCode deadContent "test.js" (linesOf deadContent) deadTree
        = [⟨"Dead Code", "test.js", 3, "Unreachable code after return statement", "  a();"⟩] := by
  refine ⟨checkForDeadCode_eq, ?_⟩
  decide

/-- C3 fails on the code: in `deadTree` the unreachable statement `a();`
follows the return at line 2, but the emitted issue's message is the fixed
string "Unreachable code after return statement", which contains no digit
at all and hence does not reference the return's line number (the source
computes `returnLine` but only logs it; it never reaches the message). -/
theorem claim_C3_counterexample :
    checkForDeadCode deadContent "test.js" (linesOf deadContent) deadTree
      = [⟨"Dead Code", "test.js", 3, "Unreachable code after return statement", "  a();"⟩]
    ∧ getLineNumberFromIndex deadContent 17 = 2
    ∧ ("Unreachable code after return statement".data.any Char.isDigit) = false := by
  refine ⟨by decide, by decide, by decide⟩

/-- C3 amended.  Every UnreachableCode ("Dead Code") issue the engine
emits has the fixed message "Unreachable code after return statement";
the earlier return's line number is not part of the message. -/
theorem claim_C3_amended :
    ∀ (content filePath : String) (lines : List String) (t : Node) (i : Issue),
    i ∈ checkForDeadCode content filePath lines t →
    i.message = "Unreachable code after return statement" := by
  intro content filePath lines t i hmem
  rw [checkForDeadCode_eq] at hmem
  rw [List.mem_flatMap] at hmem
  obtain ⟨body, -, hb⟩ := hmem
  unfold deadSpecBlock at hb
  split at hb
  · split at hb
    · simp only [List.mem_singleton] at hb
      subst hb
      rfl
    · simp at hb
  · simp at hb

/-- Witness for the amended C3 at the concrete dead-code example. -/
theorem claim_C3_amended_witness :
    (⟨"Dead Code", "test.js", 3, "Unreachable code after return statement", "  a();"⟩ :
      Issue).message = "Unreachable code after return statement" :=
  claim_C3_amended deadContent "test.js" (linesOf deadContent) deadTree _ (by decide)

/-- C6.  A parse failure yields exactly one SyntaxError ("Syntax Error")
issue, at the parser's reported line (or line 1 when the error carries no
location), with the parser message embedded, and no issue from any other
detector. -/
theorem claim_C6 :
    ∀ (filePath content : String) (e : ParseError),
    scanFile filePath content (Except.error e)
      = [⟨"Syntax Error", filePath, e.loc.getD 1, "Syntax error: " ++ e.msg,
          jsLineAt (linesOf content) ((e.loc.getD 1 : Int) - 1)⟩] :=
  fun _ _ _ => rfl

/-- C9.  The engine is a pure function of its per-file input — the source
keeps no state outside the local variables of one `scanFile` call — so two
runs on the same (path, text, parse result) give the same issue list, and
a batch splits into the concatenation of independent per-file runs. -/
theorem claim_C9 :
    ∀ (filePath content : String) (pr : Except ParseError Node)
      (files₁ files₂ : List (String × String × Except ParseError Node)),
    scanFile filePath content pr = scanFile filePath content pr
    ∧ scanBatch (files₁ ++ files₂) = scanBatch files₁ ++ scanBatch files₂ := by
  intro filePath content pr files₁ files₂
  exact ⟨rfl, by simp [scanBatch]⟩

mutual

lemma checkNesting_eq (content filePath : String) (lines : List String) :
    ∀ (n : Node) (level : Nat),
    checkNesting content filePath lines n level
      = ((nestingOcc n level).filter (fun p => decide (3 ≤ p.2))).map
          (fun p => mkDeepIssue content filePath lines p.1 p.2)
  | .program s e body, level => by
      simp [checkNesting, nestingOcc, nestList_eq content filePath lines body level]
  | .exprStmt s e x, level => by simp [checkNesting, nestingOcc]
  | .ifStmt s e t c a, level => by
      by_cases h : 3 ≤ level
      · simp [checkNesting, nestingOcc, MAX_NESTING_LEVEL, h, List.filter_cons,
          checkNesting_eq content filePath lines c (level + 1),
          nestOpt_eq content filePath lines a (level + 1)]
      · simp [checkNesting, nestingOcc, MAX_NESTING_LEVEL, h, List.filter_cons,
          checkNesting_eq content filePath lines c (level + 1),
          nestOpt_eq content filePath lines a (level + 1)]
  | .forStmt s e i t u b, level => by
      by_cases h : 3 ≤ level
      · simp [checkNesting, nestingOcc, MAX_NESTING_LEVEL, h, List.filter_cons,
          checkNesting_eq content filePath lines b (level + 1)]
      · simp [checkNesting, nestingOcc, MAX_NESTING_LEVEL, h, List.filter_cons,
          checkNesting_eq content filePath lines b (level + 1)]
  | .whileStmt s e t b, level => by
      by_cases h : 3 ≤ level
      · simp [checkNesting, nestingOcc, MAX_NESTING_LEVEL, h, List.filter_cons,
          checkNesting_eq content filePath lines b (level + 1)]
      · simp [checkNesting, nestingOcc, MAX_NESTING_LEVEL, h, List.filter_cons,
          checkNesting_eq content filePath lines b (level + 1)]
  | .doWhileStmt s e b t, level => by
      by_cases h : 3 ≤ level
      · simp [checkNesting, nestingOcc, MAX_NESTING_LEVEL, h, List.filter_cons,
          checkNesting_eq content filePath lines b (level + 1)]
      · simp [checkNesting, nestingOcc, MAX_NESTING_LEVEL, h, List.filter_cons,
          checkNesting_eq content filePath lines b (level + 1)]
  | .forInStmt s e l r b, level => by
      by_cases h : 3 ≤ level
      · simp [checkNesting, nestingOcc, MAX_NESTING_LEVEL, h, List.filter_cons,
          checkNesting_eq content filePath lines b (level + 1)]
      · simp [checkNesting, nestingOcc, MAX_NESTING_LEVEL, h, List.filter_cons,
          checkNesting_eq content filePath lines b (level + 1)]
  | .forOfStmt s e l r b, level => by
      by_cases h : 3 ≤ level
      · simp [checkNesting, nestingOcc, MAX_NESTING_LEVEL, h, List.filter_cons,
          checkNesting_eq content filePath lines b (level + 1)]
      · simp [checkNesting, nestingOcc, MAX_NESTING_LEVEL, h, List.filter_cons,
          checkNesting_eq content filePath lines b (level + 1)]
  | .blockStmt s e body, level => by
      simp [checkNesting, nestingOcc, nestList_eq content filePath lines body level]
  | .returnStmt s e a, level => by simp [checkNesting, nestingOcc]
  | .funcDecl s e i p b, level => by
      simp [checkNesting, nestingOcc, nestList_eq content filePath lines p level,
        checkNesting_eq content filePath lines b level]
  | .funcExpr s e i p b, level => by
      simp [checkNesting, nestingOcc, nestList_eq content filePath lines p level,
        checkNesting_eq content filePath lines b level]
  | .arrowFunc s e p b, level => by
      simp [checkNesting, nestingOcc, nestList_eq content filePath lines p level,
        checkNesting_eq content filePath lines b level]
  | .varDecl s e d, level => by
      simp [checkNesting, nestingOcc, nestList_eq content filePath lines d level]
  | .varDeclarator s e i d, level => by simp [checkNesting, nestingOcc]
  | .assignExpr s e l r, level => by simp [checkNesting, nestingOcc]
  | .callExpr s e c a, level => by
      simp [checkNesting, nestingOcc, nestList_eq content filePath lines a level]
  | .objectExpr s e p, level => by
      simp [checkNesting, nestingOcc, nestList_eq content filePath lines p level]
  | .property s e k v, level => by simp [checkNesting, nestingOcc]
  | .ident s e nm, level => by simp [checkNesting, nestingOcc]
  | .lit s e, level => by simp [checkNesting, nestingOcc]

lemma nestList_eq (content filePath : String) (lines : List String) :
    ∀ (l : List Node) (level : Nat),
    nestList content filePath lines l level
      = ((nestingOccList l level).filter (fun p => decide (3 ≤ p.2))).map
          (fun p => mkDeepIssue content filePath lines p.1 p.2)
  | [], level => by simp [nestList, nestingOccList]
  | x :: xs, level => by
      simp [nestList, nestingOccList,
        checkNesting_eq content filePath lines x level,
        nestList_eq content filePath lines xs level]

lemma nestOpt_eq (content filePath : String) (lines : List String) :
    ∀ (o : Option Node) (level : Nat),
    nestOpt content filePath lines o level
      = ((nestingOccOpt o level).filter (fun p => decide (3 ≤ p.2))).map
          (fun p => mkDeepIssue content filePath lines p.1 p.2)
  | none, level => by simp [nestOpt, nestingOccOpt]
  | some x, level => by
      simp [nestOpt, nestingOccOpt, checkNesting_eq content filePath lines x level]

end

/-- C1 fails on the code: in `nestTree` the innermost conditional (start
offset 44) is a control-flow construct of the parsed tree with three
enclosing control-flow construct bodies, i.e. at depth 4, so the claim
demands exactly one DeepNesting issue for it — but the whole `if` chain
sits inside the `init` of a variable declarator, which the detector's
property loop never enters, and the engine emits no issue at all. -/
theorem claim_C1_counterexample :
    (specDeepOcc nestTree 0).filter (fun p => decide (3 ≤ p.2)) = [(44, 3)]
    ∧ checkForDeeplyNestedCode nestContent "test.js" (linesOf nestContent) nestTree = [] := by
  exact ⟨by decide, by decide⟩

/-- C1 amended.  For every control-flow construct the nesting detector's
traversal reaches (it descends only into array-valued children and
`body`/`consequent`/`alternate` slots — in particular never into
declarator initializers, expression statements or condition expressions),
met with `level` enclosing control-flow construct bodies: the engine
emits exactly one DeepNesting ("Deeply Nested Code") issue per construct
with `level ≥ 3` (depth ≥ 4), anchored at the construct's start line,
with the depth `level + 1` embedded in the message, and no issue for any
construct at depth ≤ 3. -/
theorem claim_C1_amended :
    ∀ (content filePath : String) (lines : List String) (t : Node),
    checkForDeeplyNestedCode content filePath lines t
      = ((nestingOcc t 0).filter (fun p => decide (3 ≤ p.2))).map
          (fun p => mkDeepIssue content filePath lines p.1 p.2) :=
  fun content filePath lines t => checkNesting_eq content filePath lines t 0

lemma affix_inj (a b x y s t : List Char) (hab : a.length = b.length)
    (hst : s.length = t.length) (h : a ++ x ++ s = b ++ y ++ t) :
    a = b ∧ x = y ∧ s = t := by
  obtain ⟨h1, h2⟩ := List.append_inj' h hst
  obtain ⟨h3, h4⟩ := List.append_inj h1 hab
  exact ⟨h3, h4, h2⟩

lemma unusedMessage_inj {k k' : DeclKind} {n n' : String}
    (h : unusedMessage k n = unusedMessage k' n') : k = k' ∧ n = n' := by
  have hd := congrArg String.data h
  cases k <;> cases k' <;>
    simp only [unusedMessage, DeclKind.lowerStr, String.data_append] at hd
  · obtain ⟨-, h2, -⟩ := affix_inj _ _ _ _ _ _ (by decide) rfl hd
    exact ⟨rfl, String.ext h2⟩
  · obtain ⟨h1, -, -⟩ := affix_inj _ _ _ _ _ _ (by decide) rfl hd
    exact absurd h1 (by decide)
  · obtain ⟨h1, -, -⟩ := affix_inj _ _ _ _ _ _ (by decide) rfl hd
    exact absurd h1 (by decide)
  · obtain ⟨-, h2, -⟩ := affix_inj _ _ _ _ _ _ (by decide) rfl hd
    exact ⟨rfl, String.ext h2⟩

lemma unusedMessage_beq_self (k : DeclKind) (name : String) :
    ((unusedMessage k name == unusedMessage DeclKind.dvar name)
      || (unusedMessage k name == unusedMessage DeclKind.dfun name)) = true := by
  cases k <;> simp

lemma unusedMessage_beq_ne {k k' : DeclKind} {n n' : String} (h : n ≠ n') :
    (unusedMessage k n == unusedMessage k' n') = false := by
  rw [beq_eq_false_iff_ne]
  intro he
  exact h (unusedMessage_inj he).2

lemma jsMapSet_keys (m : List (String × DeclInfo)) (k : String) (v : DeclInfo) :
    (jsMapSet m k v).map Prod.fst
      = if m.any (fun p => p.1 == k) then m.map Prod.fst else m.map Prod.fst ++ [k] := by
  unfold jsMapSet
  by_cases h : m.any (fun p => p.1 == k)
  · rw [if_pos h, if_pos h, List.map_map]
    refine List.map_congr_left ?_
    intro p _
    by_cases hp : p.1 = k
    · simp [hp]
    · simp [Function.comp_apply, hp]
  · rw [if_neg h, if_neg h, List.map_append]
    rfl

lemma jsMapSet_keys_nodup {m : List (String × DeclInfo)} (k : String) (v : DeclInfo)
    (h : (m.map Prod.fst).Nodup) : ((jsMapSet m k v).map Prod.fst).Nodup := by
  rw [jsMapSet_keys]
  by_cases ha : m.any (fun p => p.1 == k)
  · rwa [if_pos ha]
  · rw [if_neg ha]
    rw [List.nodup_append]
    refine ⟨h, List.nodup_singleton k, ?_⟩
    intro a hmem hk
    rw [List.mem_singleton] at hk
    have ha' : m.any (fun p => p.1 == k) = false := by
      cases hx : m.any (fun p => p.1 == k)
      · rfl
      · exact absurd hx ha
    rw [List.any_eq_false] at ha'
    obtain ⟨p, hp, hfst⟩ := List.mem_map.mp hmem
    exact ha' p hp (by simp [hfst, hk])

lemma mem_jsMapSet {m : List (String × DeclInfo)} {k : String} {v : DeclInfo}
    {p : String × DeclInfo} (h : p ∈ jsMapSet m k v) : p ∈ m ∨ p = (k, v) := by
  unfold jsMapSet at h
  by_cases ha : m.any (fun q => q.1 == k)
  · rw [if_pos ha] at h
    obtain ⟨q, hq, hval⟩ := List.mem_map.mp h
    by_cases hqk : (q.1 == k) = true
    · rw [if_pos hqk] at hval
      exact Or.inr hval.symm
    · rw [if_neg hqk] at hval
      exact Or.inl (hval ▸ hq)
  · rw [if_neg ha] at h
    rw [List.mem_append, List.mem_singleton] at h
    exact h

lemma declStep_keys_nodup (content : String) {m : List (String × DeclInfo)} (n : Node)
    (h : (m.map Prod.fst).Nodup) :
    (((match n with
      | .varDeclarator s _ (.ident _ _ name) _ =>
          jsMapSet m name ⟨.dvar, getLineNumberFromIndex content s⟩
      | .funcDecl s _ (some (.ident _ _ name)) _ _ =>
          jsMapSet m name ⟨.dfun, getLineNumberFromIndex content s⟩
      | _ => m) : List (String × DeclInfo)).map Prod.fst).Nodup := by
  cases n with
  | varDeclarator s e id d =>
    cases id with
    | ident s' e' name => exact jsMapSet_keys_nodup name _ h
    | _ => exact h
  | funcDecl s e id p b =>
    cases id with
    | none => exact h
    | some i =>
      cases i with
      | ident s' e' name => exact jsMapSet_keys_nodup name _ h
      | _ => exact h
  | _ => exact h

lemma declFold_keys_nodup (content : String) :
    ∀ (L : List Node) (m : List (String × DeclInfo)), (m.map Prod.fst).Nodup →
    (((L.foldl (fun m n =>
        match n with
        | .varDeclarator s _ (.ident _ _ name) _ =>
            jsMapSet m name ⟨.dvar, getLineNumberFromIndex content s⟩
        | .funcDecl s _ (some (.ident _ _ name)) _ _ =>
            jsMapSet m name ⟨.dfun, getLineNumberFromIndex content s⟩
        | _ => m) m)).map Prod.fst).Nodup := by
  intro L
  induction L with
  | nil => intro m h; exact h
  | cons n rest ih =>
    intro m h
    exact ih _ (declStep_keys_nodup content n h)

lemma declPass_keys_nodup (content : String) (t : Node) :
    ((declPass content t).map Prod.fst).Nodup := by
  unfold declPass
  exact declFold_keys_nodup content (allNodes t) [] (by simp)

lemma declStep_mem (content : String) {m : List (String × DeclInfo)} (n : Node)
    {p : String × DeclInfo}
    (h : p ∈ ((match n with
      | .varDeclarator s _ (.ident _ _ name) _ =>
          jsMapSet m name ⟨.dvar, getLineNumberFromIndex content s⟩
      | .funcDecl s _ (some (.ident _ _ name)) _ _ =>
          jsMapSet m name ⟨.dfun, getLineNumberFromIndex content s⟩
      | _ => m) : List (String × DeclInfo))) :
    p ∈ m ∨ ∃ idx, p.2.line = getLineNumberFromIndex content idx := by
  cases n with
  | varDeclarator s e id d =>
    cases id with
    | ident s' e' name =>
      rcases mem_jsMapSet h with hm | he
      · exact Or.inl hm
      · exact Or.inr ⟨s, by rw [he]⟩
    | _ => exact Or.inl h
  | funcDecl s e id prm b =>
    cases id with
    | none => exact Or.inl h
    | some i =>
      cases i with
      | ident s' e' name =>
        rcases mem_jsMapSet h with hm | he
        · exact Or.inl hm
        · exact Or.inr ⟨s, by rw [he]⟩
      | _ => exact Or.inl h
  | _ => exact Or.inl h

lemma declPass_line_shape (content : String) (t : Node) :
    ∀ p ∈ declPass content t, ∃ idx, p.2.line = getLineNumberFromIndex content idx := by
  unfold declPass
  have main : ∀ (L : List Node) (m : List (String × DeclInfo)),
      (∀ p ∈ m, ∃ idx, p.2.line = getLineNumberFromIndex content idx) →
      ∀ p ∈ (L.foldl (fun m n =>
        match n with
        | .varDeclarator s _ (.ident _ _ name) _ =>
            jsMapSet m name ⟨.dvar, getLineNumberFromIndex content s⟩
        | .funcDecl s _ (some (.ident _ _ name)) _ _ =>
            jsMapSet m name ⟨.dfun, getLineNumberFromIndex content s⟩
        | _ => m) m), ∃ idx, p.2.line = getLineNumberFromIndex content idx := by
    intro L
    induction L with
    | nil => intro m hm p hp; exact hm p hp
    | cons n rest ih =>
      intro m hm p hp
      refine ih _ ?_ p hp
      intro q hq
      rcases declStep_mem content n hq with hqm | hline
      · exact hm q hqm
      · exact hline
  exact main (allNodes t) [] (by simp)

lemma mem_refFold (decls : List (String × DeclInfo)) (name : String) :
    ∀ (L : List (Node × List Node)) (acc : List String),
    (name ∈ L.foldl (fun used pr =>
      match pr with
      | (.ident s e nm, anc) =>
        if !isDeclaringId anc (.ident s e nm) && decls.any (fun p => p.1 == nm) then
          nm :: used
        else used
      | _ => used) acc)
    ↔ (name ∈ acc ∨ ((∃ p ∈ decls, p.1 = name)
        ∧ (L.any (fun pr =>
            match pr with
            | (.ident s e nm, anc) => nm == name && !isDeclaringId anc (.ident s e nm)
            | _ => false)) = true))
  | [], acc => by simp
  | (n, anc) :: rest, acc => by
      cases n with
      | ident s e nm =>
        rw [List.foldl_cons, List.any_cons]
        rw [mem_refFold decls name rest _]
        by_cases hd2 : nm = name
        · subst hd2
          by_cases hd1 : isDeclaringId anc (Node.ident s e nm)
          · simp [hd1]
          · by_cases hd3 : decls.any (fun p => p.1 == nm)
            · have hex : ∃ p ∈ decls, p.1 = nm := by
                rw [List.any_eq_true] at hd3
                obtain ⟨p, hp, hb⟩ := hd3
                exact ⟨p, hp, by simpa using hb⟩
              simp [hd1, hd3, hex, List.mem_cons]
            · have hnex : ¬ ∃ p ∈ decls, p.1 = nm := by
                intro ⟨p, hp, he⟩
                exact hd3 (List.any_eq_true.mpr ⟨p, hp, by simp [he]⟩)
              simp [hd1, hd3, hnex]
        · have hd2' : ¬ name = nm := fun h => hd2 h.symm
          have hpred : (nm == name && !isDeclaringId anc (Node.ident s e nm)) = false := by
            simp [hd2]
          by_cases hC : (!isDeclaringId anc (Node.ident s e nm)
              && decls.any fun p => p.1 == nm)
          · simp [hC, hpred, List.mem_cons, hd2']
          · simp [hC, hpred]
      | program s e body => exact mem_refFold decls name rest acc
      | exprStmt s e x => exact mem_refFold decls name rest acc
      | ifStmt s e t c a => exact mem_refFold decls name rest acc
      | forStmt s e i t u b => exact mem_refFold decls name rest acc
      | whileStmt s e t b => exact mem_refFold decls name rest acc
      | doWhileStmt s e b t => exact mem_refFold decls name rest acc
      | forInStmt s e l r b => exact mem_refFold decls name rest acc
      | forOfStmt s e l r b => exact mem_refFold decls name rest acc
      | blockStmt s e body => exact mem_refFold decls name rest acc
      | returnStmt s e a => exact mem_refFold decls name rest acc
      | funcDecl s e i p b => exact mem_refFold decls name rest acc
      | funcExpr s e i p b => exact mem_refFold decls name rest acc
      | arrowFunc s e p b => exact mem_refFold decls name rest acc
      | varDecl s e d => exact mem_refFold decls name rest acc
      | varDeclarator s e i d => exact mem_refFold decls name rest acc
      | assignExpr s e l r => exact mem_refFold decls name rest acc
      | callExpr s e c a => exact mem_refFold decls name rest acc
      | objectExpr s e p => exact mem_refFold decls name rest acc
      | property s e k v => exact mem_refFold decls name rest acc
      | lit s e => exact mem_refFold decls name rest acc

lemma mem_refPass (t : Node) (decls : List (String × DeclInfo)) (name : String) :
    name ∈ refPass t decls
      ↔ ((∃ p ∈ decls, p.1 = name) ∧ referencedB t name = true) := by
  unfold refPass
  rw [mem_refFold decls name (visitNode [] t) []]
  simp only [List.not_mem_nil, false_or]
  exact Iff.rfl

lemma unusedFold_eq (filePath : String) (lines : List String) (used : List String) :
    ∀ (decls : List (String × DeclInfo)) (acc : List Issue),
    decls.foldl (fun issues p =>
      if p.1 == "exports" || p.1 == "module" || p.1 == "require" then issues
      else if used.contains p.1 then issues
      else issues ++ [mkUnusedIssue filePath lines p.1 p.2]) acc
    = acc ++ decls.filterMap (fun p =>
        if p.1 == "exports" || p.1 == "module" || p.1 == "require" || used.contains p.1
        then none else some (mkUnusedIssue filePath lines p.1 p.2))
  | [], acc => by simp
  | p :: rest, acc => by
      rw [List.foldl_cons]
      by_cases h1 : (p.1 == "exports" || p.1 == "module" || p.1 == "require")
      · rw [if_pos h1]
        rw [unusedFold_eq filePath lines used rest acc]
        have hc : (p.1 == "exports" || p.1 == "module" || p.1 == "require"
            || used.contains p.1) = true := by
          simp only [Bool.or_eq_true] at h1 ⊢
          tauto
        rw [List.filterMap_cons, if_pos hc]
      · rw [if_neg h1]
        by_cases h2 : used.contains p.1
        · rw [if_pos h2]
          rw [unusedFold_eq filePath lines used rest acc]
          have hc : (p.1 == "exports" || p.1 == "module" || p.1 == "require"
              || used.contains p.1) = true := by
            simp only [Bool.or_eq_true] at h2 ⊢
            tauto
          rw [List.filterMap_cons, if_pos hc]
        · rw [if_neg h2]
          rw [unusedFold_eq filePath lines used rest
            (acc ++ [mkUnusedIssue filePath lines p.1 p.2])]
          have hc : (p.1 == "exports" || p.1 == "module" || p.1 == "require"
              || used.contains p.1) = false := by
            have h1' : (p.1 == "exports" || p.1 == "module" || p.1 == "require") = false := by
              cases hx : (p.1 == "exports" || p.1 == "module" || p.1 == "require")
              · rfl
              · exact absurd hx h1
            have h2' : used.contains p.1 = false := by
              cases hx : used.contains p.1
              · rfl
              · exact absurd hx h2
            rw [Bool.or_eq_false_iff]
            exact ⟨h1', h2'⟩
          have hcne : ¬((p.1 == "exports" || p.1 == "module" || p.1 == "require"
              || used.contains p.1) = true) := by
            rw [hc]
            exact Bool.false_ne_true
          rw [List.filterMap_cons, if_neg hcne, List.append_assoc]
          rfl

lemma checkForUnusedCode_eq (content filePath : String) (lines : List String) (t : Node) :
    checkForUnusedCode content filePath lines t
      = (declPass content t).filterMap (fun p =>
          if p.1 == "exports" || p.1 == "module" || p.1 == "require"
              || (refPass t (declPass content t)).contains p.1
          then none else some (mkUnusedIssue filePath lines p.1 p.2)) := by
  unfold checkForUnusedCode
  rw [unusedFold_eq filePath lines (refPass t (declPass content t)) (declPass content t) []]
  rw [List.nil_append]

lemma no_name_filter (filePath : String) (lines : List String) (name : String)
    (used : List String) :
    ∀ (decls : List (String × DeclInfo)), (∀ p ∈ decls, p.1 ≠ name) →
    ((decls.filterMap (fun p =>
        if p.1 == "exports" || p.1 == "module" || p.1 == "require" || used.contains p.1
        then none else some (mkUnusedIssue filePath lines p.1 p.2))).filter
      (fun i => i.message == unusedMessage .dvar name || i.message == unusedMessage .dfun name))
    = []
  | [], _ => by simp
  | p :: rest, h => by
      have hrest := no_name_filter filePath lines name used rest
        (fun q hq => h q (List.mem_cons_of_mem p hq))
      have hne : p.1 ≠ name := h p (List.mem_cons_self p rest)
      have hneg : ¬ ((mkUnusedIssue filePath lines p.1 p.2).message
            == unusedMessage .dvar name
          || (mkUnusedIssue filePath lines p.1 p.2).message
            == unusedMessage .dfun name) = true := by
        simp only [mkUnusedIssue, Bool.or_eq_true]
        rintro (hb | hb)
        · exact absurd (unusedMessage_inj (by simpa using hb)).2 hne
        · exact absurd (unusedMessage_inj (by simpa using hb)).2 hne
      rw [List.filterMap_cons]
      by_cases hc : (p.1 == "exports" || p.1 == "module" || p.1 == "require"
          || used.contains p.1)
      · rw [if_pos hc]
        exact hrest
      · rw [if_neg hc]
        exact (@List.filter_cons_of_neg _
          (fun i => i.message == unusedMessage .dvar name
            || i.message == unusedMessage .dfun name)
          (mkUnusedIssue filePath lines p.1 p.2) _ hneg).trans hrest

lemma unused_filter_core (filePath : String) (lines : List String) (name : String)
    (info : DeclInfo) (used : List String) :
    ∀ (decls : List (String × DeclInfo)),
    (name, info) ∈ decls → ((decls.map Prod.fst).Nodup) →
    ((decls.filterMap (fun p =>
        if p.1 == "exports" || p.1 == "module" || p.1 == "require" || used.contains p.1
        then none else some (mkUnusedIssue filePath lines p.1 p.2))).filter
      (fun i => i.message == unusedMessage .dvar name || i.message == unusedMessage .dfun name))
    = (if (name == "exports" || name == "module" || name == "require"
          || used.contains name) then [] else [mkUnusedIssue filePath lines name info])
  | [], hmem, _ => absurd hmem (List.not_mem_nil _)
  | p :: rest, hmem, hnd => by
      rw [List.mem_cons] at hmem
      simp only [List.map_cons, List.nodup_cons] at hnd
      rcases hmem with hp | hp
      · subst hp
        have hnd1 : name ∉ List.map Prod.fst rest := hnd.1
        have hrest : ∀ q ∈ rest, q.1 ≠ name := by
          intro q hq he
          exact hnd1 (he ▸ List.mem_map_of_mem Prod.fst hq)
        rw [List.filterMap_cons]
        by_cases hc : (name == "exports" || name == "module" || name == "require"
            || used.contains name)
        · rw [if_pos hc, if_pos hc]
          exact no_name_filter filePath lines name used rest hrest
        · rw [if_neg hc, if_neg hc]
          have hpos : ((mkUnusedIssue filePath lines (name, info).1 (name, info).2).message
                == unusedMessage .dvar name
              || (mkUnusedIssue filePath lines (name, info).1 (name, info).2).message
                == unusedMessage .dfun name) = true := by
            simpa only [mkUnusedIssue] using unusedMessage_beq_self info.kind name
          exact (@List.filter_cons_of_pos _
            (fun i => i.message == unusedMessage .dvar name
              || i.message == unusedMessage .dfun name)
            (mkUnusedIssue filePath lines name info) _ hpos).trans
            (by rw [no_name_filter filePath lines name used rest hrest])
      · have hney : p.1 ≠ name := by
          intro he
          have hmm : name ∈ List.map Prod.fst rest := List.mem_map_of_mem Prod.fst hp
          exact hnd.1 (he ▸ hmm)
        have ih := unused_filter_core filePath lines name info used rest hp hnd.2
        have hneg : ¬ ((mkUnusedIssue filePath lines p.1 p.2).message
              == unusedMessage .dvar name
            || (mkUnusedIssue filePath lines p.1 p.2).message
              == unusedMessage .dfun name) = true := by
          simp only [mkUnusedIssue, Bool.or_eq_true]
          rintro (hb | hb)
          · exact absurd (unusedMessage_inj (by simpa using hb)).2 hney
          · exact absurd (unusedMessage_inj (by simpa using hb)).2 hney
        rw [List.filterMap_cons]
        by_cases hc : (p.1 == "exports" || p.1 == "module" || p.1 == "require"
            || used.contains p.1)
        · rw [if_pos hc]
          exact ih
        · rw [if_neg hc]
          exact (@List.filter_cons_of_neg _
            (fun i => i.message == unusedMessage .dvar name
              || i.message == unusedMessage .dfun name)
            (mkUnusedIssue filePath lines p.1 p.2) _ hneg).trans ih

/-- C4.  For every declaration record (a simple-named variable declarator
or named function declaration, keyed by name with last-write-wins) whose
name is outside the exclusion set: if the name has no non-declaring
identifier occurrence anywhere in the file, the engine emits exactly one
"Unused Variable"/"Unused Function" issue, anchored at the record's
declaration line, with the name embedded in the message — and if the name
is referenced anywhere (before or after the declaration), no such issue
is emitted for it.  Stated as: the sublist of issues whose message embeds
this name is the singleton record issue or empty, according to
`referencedB`. -/
theorem claim_C4 (content filePath : String) (lines : List String) (t : Node)
    (name : String) (info : DeclInfo)
    (h₁ : (name, info) ∈ declPass content t)
    (h₂ : ¬(name = "exports" ∨ name = "module" ∨ name = "require")) :
    (checkForUnusedCode content filePath lines t).filter
        (fun i => i.message == unusedMessage .dvar name
          || i.message == unusedMessage .dfun name)
      = if referencedB t name then [] else [mkUnusedIssue filePath lines name info] := by
  rw [checkForUnusedCode_eq]
  rw [unused_filter_core filePath lines name info (refPass t (declPass content t))
    (declPass content t) h₁ (declPass_keys_nodup content t)]
  have hex : ∃ p ∈ declPass content t, p.1 = name := ⟨(name, info), h₁, rfl⟩
  have hcont : (refPass t (declPass content t)).contains name = referencedB t name := by
    cases hb : referencedB t name with
    | false =>
      have hnm : name ∉ refPass t (declPass content t) := by
        rw [mem_refPass]
        rintro ⟨-, hr⟩
        rw [hb] at hr
        exact Bool.false_ne_true hr
      simpa [List.contains, List.elem_eq_mem] using hnm
    | true =>
      have hnm : name ∈ refPass t (declPass content t) :=
        (mem_refPass t (declPass content t) name).mpr ⟨hex, hb⟩
      simpa [List.contains, List.elem_eq_mem] using hnm
  have he1 : (name == "exports") = false :=
    beq_eq_false_iff_ne.mpr (fun h => h₂ (Or.inl h))
  have he2 : (name == "module") = false :=
    beq_eq_false_iff_ne.mpr (fun h => h₂ (Or.inr (Or.inl h)))
  have he3 : (name == "require") = false :=
    beq_eq_false_iff_ne.mpr (fun h => h₂ (Or.inr (Or.inr h)))
  rw [hcont, he1, he2, he3]
  simp

/-- Witness for C4 at the concrete file `const a = 1;`: the unreferenced
record `a` produces exactly its unused-variable issue. -/
theorem claim_C4_witness :
    (("a", (⟨DeclKind.dvar, 1⟩ : DeclInfo)) ∈ declPass unusedContent unusedTree)
    ∧ ¬("a" = "exports" ∨ "a" = "module" ∨ "a" = "require")
    ∧ ((checkForUnusedCode unusedContent "test.js" (linesOf unusedContent) unusedTree).filter
        (fun i => i.message == unusedMessage .dvar "a" || i.message == unusedMessage .dfun "a")
      = if referencedB unusedTree "a" then []
        else [mkUnusedIssue "test.js" (linesOf unusedContent) "a" ⟨DeclKind.dvar, 1⟩]) :=
  ⟨by decide, by decide,
    claim_C4 unusedContent "test.js" (linesOf unusedContent) unusedTree "a"
      ⟨DeclKind.dvar, 1⟩ (by decide) (by decide)⟩

/-- C10.  The exclusion set of the unused-declaration detector is exactly
`exports`, `module`, `require`: a never-referenced declaration record
yields no issue precisely when its name is one of these three, and the
record's single unused issue otherwise. -/
theorem claim_C10 (content filePath : String) (lines : List String) (t : Node)
    (name : String) (info : DeclInfo)
    (h₁ : (name, info) ∈ declPass content t)
    (h₃ : referencedB t name = false) :
    (checkForUnusedCode content filePath lines t).filter
        (fun i => i.message == unusedMessage .dvar name
          || i.message == unusedMessage .dfun name)
      = if name = "exports" ∨ name = "module" ∨ name = "require" then []
        else [mkUnusedIssue filePath lines name info] := by
  rw [checkForUnusedCode_eq]
  rw [unused_filter_core filePath lines name info (refPass t (declPass content t))
    (declPass content t) h₁ (declPass_keys_nodup content t)]
  have hcont : (refPass t (declPass content t)).contains name = false := by
    have hnm : name ∉ refPass t (declPass content t) := by
      rw [mem_refPass]
      rintro ⟨-, hr⟩
      rw [h₃] at hr
      exact Bool.false_ne_true hr
    simpa [List.contains, List.elem_eq_mem] using hnm
  rw [hcont]
  by_cases hx : name = "exports" ∨ name = "module" ∨ name = "require"
  · rcases hx with h | h | h <;> subst h <;> simp
  · have h1 : (name == "exports") = false :=
      beq_eq_false_iff_ne.mpr (fun h => hx (Or.inl h))
    have h2 : (name == "module") = false :=
      beq_eq_false_iff_ne.mpr (fun h => hx (Or.inr (Or.inl h)))
    have h3 : (name == "require") = false :=
      beq_eq_false_iff_ne.mpr (fun h => hx (Or.inr (Or.inr h)))
    rw [h1, h2, h3]
    simp [hx]

/-- Witness for C10 at the concrete file `const exports = 1;`: the
never-referenced record named `exports` is suppressed by the exclusion
set. -/
theorem claim_C10_witness :
    (("exports", (⟨DeclKind.dvar, 1⟩ : DeclInfo)) ∈ declPass exportsContent exportsTree)
    ∧ referencedB exportsTree "exports" = false
    ∧ ((checkForUnusedCode exportsContent "test.js" (linesOf exportsContent) exportsTree).filter
        (fun i => i.message == unusedMessage .dvar "exports"
          || i.message == unusedMessage .dfun "exports")
      = if "exports" = "exports" ∨ "exports" = "module" ∨ "exports" = "require" then []
        else [mkUnusedIssue "test.js" (linesOf exportsContent) "exports" ⟨DeclKind.dvar, 1⟩]) :=
  ⟨by decide, by decide,
    claim_C10 exportsContent "test.js" (linesOf exportsContent) exportsTree "exports"
      ⟨DeclKind.dvar, 1⟩ (by decide) (by decide)⟩

lemma parentStep_eq (target : Node) (result : Option Node) (n : Node) :
    (match n with
      | .varDeclarator _ _ _ (some i) => if nodeBeq i target then some n else result
      | .assignExpr _ _ _ r => if nodeBeq r target then some n else result
      | .property _ _ _ v => if nodeBeq v target then some n else result
      | _ => result)
    = if slotMatch n target then some n else result := by
  cases n with
  | varDeclarator s e i d => cases d <;> simp [slotMatch]
  | assignExpr s e l r => simp [slotMatch]
  | property s e k v => simp [slotMatch]
  | _ => simp [slotMatch]

lemma foldl_parent (target : Node) :
    ∀ (L : List Node) (acc : Option Node),
    L.foldl (fun result n =>
      match n with
      | .varDeclarator _ _ _ (some i) => if nodeBeq i target then some n else result
      | .assignExpr _ _ _ r => if nodeBeq r target then some n else result
      | .property _ _ _ v => if nodeBeq v target then some n else result
      | _ => result) acc
    = ((L.reverse.find? (fun p => slotMatch p target)).or acc)
  | [], acc => by simp
  | n :: rest, acc => by
      rw [List.foldl_cons]
      rw [parentStep_eq target acc n]
      rw [foldl_parent target rest _]
      rw [List.reverse_cons, List.find?_append]
      cases hf : rest.reverse.find? (fun p => slotMatch p target) with
      | some p => simp [Option.or]
      | none =>
        by_cases hs : slotMatch n target
        · simp [hs, Option.or]
        · simp [hs, Option.or]

lemma findParentNode_eq (t target : Node) :
    findParentNode t target
      = (allNodes t).reverse.find? (fun p => slotMatch p target) := by
  unfold findParentNode
  rw [foldl_parent target (allNodes t) none]
  cases (allNodes t).reverse.find? (fun p => slotMatch p target) <;> simp [Option.or]

lemma find?_of_filter_singleton {α : Type} (f : α → Bool) :
    ∀ (l : List α) (p : α), l.filter f = [p] → l.find? f = some p
  | [], p, h => by simp at h
  | x :: rest, p, h => by
      by_cases hx : f x
      · rw [List.filter_cons_of_pos hx] at h
        injection h with h1 h2
        rw [List.find?_cons_of_pos _ hx, h1]
      · rw [List.filter_cons_of_neg hx] at h
        rw [List.find?_cons_of_neg _ hx]
        exact find?_of_filter_singleton f rest p h

lemma find?_sub {α : Type} {p q : α → Bool} (himp : ∀ a, q a → p a) :
    ∀ (l : List α), l.find? q = (l.filter p).find? q
  | [] => rfl
  | x :: rest => by
      by_cases hpx : p x
      · rw [List.filter_cons_of_pos hpx]
        by_cases hqx : q x
        · rw [List.find?_cons_of_pos _ hqx, List.find?_cons_of_pos _ hqx]
        · rw [List.find?_cons_of_neg _ hqx, List.find?_cons_of_neg _ hqx]
          exact find?_sub himp rest
      · have hqx : ¬ q x = true := fun hq => hpx (himp x hq)
        rw [List.filter_cons_of_neg hpx, List.find?_cons_of_neg _ hqx]
        exact find?_sub himp rest

lemma declParent_imp_slot (n : Node) : ∀ (a : Node),
    (match a with
      | .varDeclarator _ _ _ (some i) => nodeBeq i n
      | _ => false) = true → slotMatch a n = true := by
  intro a
  cases a with
  | varDeclarator s e i d =>
    cases d with
    | none => intro h; exact absurd h (by simp)
    | some x => intro h; simpa [slotMatch] using h
  | _ => intro h; exact absurd h (by simp)

lemma longName_eq (t n : Node)
    (h : ((allNodes t).filter (fun p => slotMatch p n)).length ≤ 1) :
    declaratorName (findParentNode t n) = specBindingName t n := by
  rw [findParentNode_eq]
  cases hF : (allNodes t).filter (fun p => slotMatch p n) with
  | nil =>
    have h1 : (allNodes t).reverse.find? (fun p => slotMatch p n) = none := by
      rw [List.find?_eq_none]
      intro x hx
      exact List.filter_eq_nil_iff.mp hF x (List.mem_reverse.mp hx)
    have h2 : (allNodes t).find? (fun p =>
        match p with
        | .varDeclarator _ _ _ (some i) => nodeBeq i n
        | _ => false) = none := by
      rw [List.find?_eq_none]
      intro x hx hg
      exact List.filter_eq_nil_iff.mp hF x hx (declParent_imp_slot n x hg)
    rw [h1]
    unfold specBindingName
    rw [h2]
    rfl
  | cons p ps =>
    have hps : ps = [] := by
      rw [hF] at h
      simp only [List.length_cons] at h
      exact List.length_eq_zero.mp (by omega)
    subst hps
    have h1 : (allNodes t).reverse.find? (fun p => slotMatch p n) = some p := by
      refine find?_of_filter_singleton _ _ p ?_
      rw [List.filter_reverse, hF]
      rfl
    have hmemF : p ∈ (allNodes t).filter (fun q => slotMatch q n) := by
      rw [hF]; exact List.mem_cons_self p []
    have hpslot : slotMatch p n = true := (List.mem_filter.mp hmemF).2
    rw [h1]
    clear h1 hmemF h
    cases p with
    | varDeclarator s e i d =>
      cases d with
      | none => exact absurd hpslot (by simp [slotMatch])
      | some x =>
        have hx : nodeBeq x n = true := by simpa [slotMatch] using hpslot
        have h2 : (allNodes t).find? (fun p =>
            match p with
            | .varDeclarator _ _ _ (some i) => nodeBeq i n
            | _ => false) = some (Node.varDeclarator s e i (some x)) := by
          rw [find?_sub (declParent_imp_slot n) (allNodes t), hF]
          exact List.find?_cons_of_pos [] hx
        unfold specBindingName
        rw [h2]
        rfl
    | assignExpr s e l r =>
      have h2 : (allNodes t).find? (fun p =>
          match p with
          | .varDeclarator _ _ _ (some i) => nodeBeq i n
          | _ => false) = none := by
        rw [find?_sub (declParent_imp_slot n) (allNodes t), hF]
        rw [List.find?_cons_of_neg _ (by simp)]
        rfl
      unfold specBindingName
      rw [h2]
      rfl
    | property s e k v =>
      have h2 : (allNodes t).find? (fun p =>
          match p with
          | .varDeclarator _ _ _ (some i) => nodeBeq i n
          | _ => false) = none := by
        rw [find?_sub (declParent_imp_slot n) (allNodes t), hF]
        rw [List.find?_cons_of_neg _ (by simp)]
        rfl
      unfold specBindingName
      rw [h2]
      rfl
    | _ => exact absurd hpslot (by simp [slotMatch])

lemma longCheckNode_eq_spec (content filePath : String) (lines : List String)
    (t : Node) : ∀ (n : Node),
    ((allNodes t).filter (fun p => slotMatch p n)).length ≤ 1 →
    longCheckNode content filePath lines t n = specLongCheck content filePath lines t n := by
  intro n h
  cases n with
  | funcExpr s e i p b =>
    simp only [longCheckNode, specLongCheck, longName_eq t (Node.funcExpr s e i p b) h]
  | arrowFunc s e p b =>
    simp only [longCheckNode, specLongCheck, longName_eq t (Node.arrowFunc s e p b) h]
  | _ => rfl

lemma checkForLongFunctions_eq (content filePath : String) (lines : List String)
    (t : Node) (h : uniqueParents t = true) :
    checkForLongFunctions content filePath lines t
      = (allNodes t).flatMap (specLongCheck content filePath lines t) := by
  unfold checkForLongFunctions
  refine flatMap_congr_mem ?_
  intro n hn
  have hd := (List.all_eq_true.mp h) n hn
  exact longCheckNode_eq_spec content filePath lines t n (of_decide_eq_true hd)

/-- C5 fails on the code: the 52-line named function declaration `foo` of
`longContent` is not the initializer of any named variable, so the claim
demands a message labelling it anonymous — but the engine emits the single
long-function issue with the declaration's own name `foo`. -/
theorem claim_C5_counterexample :
    checkForLongFunctions longContent "test.js" (linesOf longContent) longTree
      = [⟨"Long Function", "test.js", 1,
          "Function \x27foo\x27 is too long (51 lines)", "function foo() \x7b"⟩]
    ∧ ("Function \x27foo\x27 is too long (51 lines)" : String)
        ≠ "Function \x27anonymous\x27 is too long (51 lines)" := by
  exact ⟨by decide, by decide⟩

/-- C5 amended.  On a well-formed tree (each node has at most one parent
slot holding it), every function-like node — named function declaration,
function expression, arrow function — produces exactly one LongFunction
("Long Function") issue precisely when its `endLine - startLine` measure
exceeds 50, anchored at its start line, with the measured length in the
message; the message names the function by its own name for a named
declaration, by the enclosing variable's name when the function is the
initializer of a variable declarator, and labels it anonymous
otherwise. -/
theorem claim_C5_amended (content filePath : String) (lines : List String)
    (t : Node) (h : uniqueParents t = true) :
    checkForLongFunctions content filePath lines t
      = (allNodes t).flatMap (specLongCheck content filePath lines t) :=
  checkForLongFunctions_eq content filePath lines t h

/-- Witness for the amended C5 at the concrete 52-line function file. -/
theorem claim_C5_amended_witness :
    uniqueParents longTree = true
    ∧ checkForLongFunctions longContent "test.js" (linesOf longContent) longTree
        = (allNodes longTree).flatMap
            (specLongCheck longContent "test.js" (linesOf longContent) longTree) :=
  ⟨by decide, claim_C5_amended longContent "test.js" (linesOf longContent) longTree (by decide)⟩

lemma splitLines_ne_nil (cs : List Char) : splitLines cs ≠ [] := by
  cases cs with
  | nil => simp [splitLines]
  | cons c rest =>
    unfold splitLines
    cases h : splitLines rest with
    | nil => simp
    | cons l ls => by_cases hc : c = '\n' <;> simp [hc]

lemma getLine_pos (content : String) (idx : Nat) :
    1 ≤ getLineNumberFromIndex content idx := by
  unfold getLineNumberFromIndex
  exact List.length_pos.mpr (splitLines_ne_nil (content.data.take idx))

lemma jsLineAt_eq_specSnippet (lines : List String) (line : Nat) (h : 1 ≤ line) :
    jsLineAt lines ((line : Int) - 1) = specSnippet lines line := by
  unfold jsLineAt specSnippet
  have hnn : ¬ ((line : Int) - 1 < 0) := by omega
  rw [if_neg hnn]
  have htn : ((line : Int) - 1).toNat = line - 1 := by omega
  rw [htn]
  by_cases hb : line ≤ lines.length
  · rw [if_pos ⟨h, hb⟩]
  · rw [if_neg (fun hcon => hb hcon.2)]
    rw [List.getD_eq_getElem?_getD]
    rw [List.getElem?_eq_none (by omega : lines.length ≤ line - 1)]
    rfl

lemma wellFormed_spec {lines : List String} {i : Issue} (h : wellFormed lines i) :
    1 ≤ i.line ∧ i.code = specSnippet lines i.line :=
  ⟨h.1, h.2.trans (jsLineAt_eq_specSnippet lines i.line h.1)⟩

lemma todoLoop_wf (content filePath : String) (lines : List String) :
    ∀ (fuel : Nat) (cs : List Char) (idx : Nat) (i : Issue),
    i ∈ todoLoop content filePath lines fuel cs idx → wellFormed lines i
  | 0, cs, idx, i => by simp [todoLoop]
  | _ + 1, [], idx, i => by simp [todoLoop]
  | fuel + 1, c :: cs, idx, i => by
      intro hm
      cases h : tryMatchTodo (c :: cs) with
      | none =>
        simp only [todoLoop, h] at hm
        exact todoLoop_wf content filePath lines fuel cs (idx + 1) i hm
      | some m =>
        obtain ⟨marker, text, len⟩ := m
        simp only [todoLoop, h, List.mem_cons] at hm
        rcases hm with rfl | hm
        · exact ⟨getLine_pos content idx, rfl⟩
        · exact todoLoop_wf content filePath lines fuel ((c :: cs).drop len) (idx + len) i hm

lemma checkForTodoComments_wf (content filePath : String) (lines : List String) :
    ∀ i ∈ checkForTodoComments content filePath lines, wellFormed lines i := by
  intro i hi
  exact todoLoop_wf content filePath lines content.data.length content.data 0 i hi

lemma checkForUnusedCode_wf (content filePath : String) (lines : List String) (t : Node) :
    ∀ i ∈ checkForUnusedCode content filePath lines t, wellFormed lines i := by
  intro i hi
  rw [checkForUnusedCode_eq] at hi
  rw [List.mem_filterMap] at hi
  obtain ⟨p, hp, hemit⟩ := hi
  split at hemit
  · exact absurd hemit (by simp)
  · injection hemit with he
    subst he
    obtain ⟨idx, hline⟩ := declPass_line_shape content t p hp
    refine ⟨?_, rfl⟩
    show 1 ≤ p.2.line
    rw [hline]
    exact getLine_pos content idx

lemma longCheckNode_wf (content filePath : String) (lines : List String) (t : Node) :
    ∀ (n : Node) (i : Issue),
    i ∈ longCheckNode content filePath lines t n → wellFormed lines i
  | Node.funcDecl s e id p b, i => by
      intro hm
      simp only [longCheckNode] at hm
      split at hm
      · rw [List.mem_singleton] at hm
        subst hm
        exact ⟨getLine_pos content s, rfl⟩
      · exact absurd hm (List.not_mem_nil i)
  | Node.funcExpr s e id p b, i => by
      intro hm
      simp only [longCheckNode] at hm
      split at hm
      · rw [List.mem_singleton] at hm
        subst hm
        exact ⟨getLine_pos content s, rfl⟩
      · exact absurd hm (List.not_mem_nil i)
  | Node.arrowFunc s e p b, i => by
      intro hm
      simp only [longCheckNode] at hm
      split at hm
      · rw [List.mem_singleton] at hm
        subst hm
        exact ⟨getLine_pos content s, rfl⟩
      · exact absurd hm (List.not_mem_nil i)
  | Node.program s e b, i => by intro hm; exact absurd hm (List.not_mem_nil i)
  | Node.exprStmt s e x, i => by intro hm; exact absurd hm (List.not_mem_nil i)
  | Node.ifStmt s e t' c a, i => by intro hm; exact absurd hm (List.not_mem_nil i)
  | Node.forStmt s e fi ft fu b, i => by intro hm; exact absurd hm (List.not_mem_nil i)
  | Node.whileStmt s e t' b, i => by intro hm; exact absurd hm (List.not_mem_nil i)
  | Node.doWhileStmt s e b t', i => by intro hm; exact absurd hm (List.not_mem_nil i)
  | Node.forInStmt s e l r b, i => by intro hm; exact absurd hm (List.not_mem_nil i)
  | Node.forOfStmt s e l r b, i => by intro hm; exact absurd hm (List.not_mem_nil i)
  | Node.blockStmt s e b, i => by intro hm; exact absurd hm (List.not_mem_nil i)
  | Node.returnStmt s e a, i => by intro hm; exact absurd hm (List.not_mem_nil i)
  | Node.varDecl s e d, i => by intro hm; exact absurd hm (List.not_mem_nil i)
  | Node.varDeclarator s e id d, i => by intro hm; exact absurd hm (List.not_mem_nil i)
  | Node.assignExpr s e l r, i => by intro hm; exact absurd hm (List.not_mem_nil i)
  | Node.callExpr s e c a, i => by intro hm; exact absurd hm (List.not_mem_nil i)
  | Node.objectExpr s e p, i => by intro hm; exact absurd hm (List.not_mem_nil i)
  | Node.property s e k v, i => by intro hm; exact absurd hm (List.not_mem_nil i)
  | Node.ident s e nm, i => by intro hm; exact absurd hm (List.not_mem_nil i)
  | Node.lit s e, i => by intro hm; exact absurd hm (List.not_mem_nil i)

lemma checkForLongFunctions_wf (content filePath : String) (lines : List String) (t : Node) :
    ∀ i ∈ checkForLongFunctions content filePath lines t, wellFormed lines i := by
  intro i hi
  unfold checkForLongFunctions at hi
  rw [List.mem_flatMap] at hi
  obtain ⟨n, -, hn⟩ := hi
  exact longCheckNode_wf content filePath lines t n i hn

lemma checkForDeeplyNestedCode_wf (content filePath : String) (lines : List String)
    (t : Node) :
    ∀ i ∈ checkForDeeplyNestedCode content filePath lines t, wellFormed lines i := by
  intro i hi
  rw [show checkForDeeplyNestedCode content filePath lines t
      = checkNesting content filePath lines t 0 from rfl] at hi
  rw [checkNesting_eq content filePath lines t 0] at hi
  rw [List.mem_map] at hi
  obtain ⟨pr, -, he⟩ := hi
  subst he
  exact ⟨getLine_pos content pr.1, rfl⟩

lemma checkForDeadCode_wf (content filePath : String) (lines : List String) (t : Node) :
    ∀ i ∈ checkForDeadCode content filePath lines t, wellFormed lines i := by
  intro i hi
  rw [checkForDeadCode_eq] at hi
  rw [List.mem_flatMap] at hi
  obtain ⟨body, -, hb⟩ := hi
  unfold deadSpecBlock at hb
  split at hb
  · split at hb
    · rw [List.mem_singleton] at hb
      subst hb
      rename_i st _
      exact ⟨getLine_pos content st.start, rfl⟩
    · exact absurd hb (List.not_mem_nil i)
  · exact absurd hb (List.not_mem_nil i)

/-- C7.  Every issue the engine emits has a 1-based line number (≥ 1),
derived via the shared offset-to-line mapping (or the parser's reported
error line, assumed 1-based per the collaborator contract), and its
snippet equals the literal source line at that line number — or the empty
string when the line is out of the file's bounds. -/
theorem claim_C7 (filePath content : String) (pr : Except ParseError Node)
    (hloc : ∀ e, pr = Except.error e → 1 ≤ e.loc.getD 1) :
    ∀ i ∈ scanFile filePath content pr,
      1 ≤ i.line ∧ i.code = specSnippet (linesOf content) i.line := by
  intro i hi
  cases pr with
  | error e =>
    simp only [scanFile, List.mem_singleton] at hi
    subst hi
    exact wellFormed_spec ⟨hloc e rfl, rfl⟩
  | ok ast =>
    simp only [scanFile, List.mem_append] at hi
    rcases hi with ((((h1 | h2) | h3) | h4) | h5)
    · exact wellFormed_spec (checkForTodoComments_wf content filePath (linesOf content) i h1)
    · exact wellFormed_spec (checkForUnusedCode_wf content filePath (linesOf content) ast i h2)
    · exact wellFormed_spec (checkForLongFunctions_wf content filePath (linesOf content) ast i h3)
    · exact wellFormed_spec (checkForDeeplyNestedCode_wf content filePath (linesOf content) ast i h4)
    · exact wellFormed_spec (checkForDeadCode_wf content filePath (linesOf content) ast i h5)

/-- Witness for C7 at the concrete dead-code example file (parsed
successfully, so the parse-error hypothesis holds vacuously). -/
theorem claim_C7_witness :
    1 ≤ (⟨"Dead Code", "test.js", 3, "Unreachable code after return statement", "  a();"⟩ :
        Issue).line
    ∧ (⟨"Dead Code", "test.js", 3, "Unreachable code after return statement", "  a();"⟩ :
        Issue).code
      = specSnippet (linesOf deadContent)
          (⟨"Dead Code", "test.js", 3, "Unreachable code after return statement", "  a();"⟩ :
            Issue).line :=
  claim_C7 "test.js" deadContent (Except.ok deadTree) (fun _ he => nomatch he) _ (by decide)
